import Mathlib

/-!
Verification of the BeamOfLights level generators.

This file shallowly embeds the three Python generator variants of the
repository:

* `src/lvlGenerator.py`        — namespace `LvlGen` (phased strategies),
* `src/referenceLVLgenerator.py` — namespace `RefGen` (edge walk only),
* `src/unnamed/part_000`       — namespace `Copy0` (single-target deps).

Modelling conventions (each noted again at the definition it concerns):

* Randomness is replaced by an explicit oracle.  Every random primitive in
  the source draws from a set of outcomes each of which has positive
  probability; the oracle supplies the outcome directly:
  - `random.shuffle(entries)` → the oracle supplies the visiting order as a
    list of indices into the unshuffled `entries` list (a permutation in any
    real run; theorems quantify over all index lists, a superset);
  - `random.randint(a, b)` → `a + o % (b - a + 1)` for an oracle value `o`
    (every value of `[a, b]` is reachable); `randint` with `a > b` raises
    `ValueError` in Python, modelled as `Option.none`;
  - `int(random.triangular(lo, hi))` (used only for the walk target length
    of `lvlGenerator.py`) has support contained in `[lo, hi]` and reaching
    every integer of `[lo, hi]`, so it is modelled exactly like `randint`;
  - `random.choice(xs)` and the cumulative-weight sampling of
    `lvlGenerator.py` → `xs[o % |xs|]`.  In the weighted sampling every
    weight `1 / (1 + dist)` is strictly positive, so every index of the
    neighbour list is a possible outcome and only the index matters to the
    algorithm; the oracle supplies it;
  - `_get_random_color` returns an opaque display string; the oracle
    supplies it (the algorithm never inspects colors).
* Python `dict`s keyed by cells or beam ids become association lists; all
  keys ever inserted are fresh (proved as an invariant), so prepending a
  binding has the same lookup/membership behaviour as `d[k] = v`.
* The unbounded `while` walks along a lane are given fuel `rows + cols + 1`,
  which suffices to walk from any in-bounds cell off the grid; out-of-fuel
  behaviour is unreachable in the situations the source creates.
* Python integers are `Int` where they may go negative (cell coordinates
  during a lane walk) and `Nat` where they cannot (lengths, ids, counters).
-/

namespace BeamOfLights

/-- Cell coordinates `(row, column)`; Python tuples of (possibly negative)
integers. -/
abbrev Cell : Type := Int × Int

/-- The four direction names of the `DIRECTIONS` table plus the `"none"`
string that `_get_direction` returns for identical cells. -/
inductive Direction : Type where
  | right | left | down | up | none
deriving DecidableEq, Repr

/-- Unit vector of a direction, mirroring the `DIRECTIONS` dictionary.
Looking up `"none"` in `DIRECTIONS` would raise `KeyError` in Python, hence
`Option.none` here. -/
def dirDelta : Direction → Option (Int × Int)
  | Direction.right => some (0, 1)
  | Direction.left  => some (0, -1)
  | Direction.down  => some (1, 0)
  | Direction.up    => some (-1, 0)
  | Direction.none  => Option.none

/-- Port of `_get_direction` (identical in all three files). -/
def getDirection (p1 p2 : Cell) : Direction :=
  let dr := p2.1 - p1.1
  let dc := p2.2 - p1.2
  if 0 < dr then Direction.down
  else if dr < 0 then Direction.up
  else if 0 < dc then Direction.right
  else if dc < 0 then Direction.left
  else Direction.none

/-- Bounds test `0 <= r < rows and 0 <= c < cols` used throughout the
source. -/
def inBounds (rows cols : Nat) (p : Cell) : Bool :=
  0 ≤ p.1 && p.1 < (rows : Int) && 0 ≤ p.2 && p.2 < (cols : Int)

/-- The grid: Python's `self.grid` dict mapping occupied cell to beam id,
as an association list (all inserted keys are fresh, see the invariants). -/
abbrev Grid : Type := List (Cell × Nat)

/-- Membership test `cell in self.grid`. -/
def gridContains (g : Grid) (c : Cell) : Bool :=
  g.any (fun p => p.1 = c)

/-- Lookup `self.grid[cell]`. -/
def gridGet (g : Grid) (c : Cell) : Option Nat :=
  (g.find? (fun p => p.1 = c)).map (fun p => p.2)

/-- Beam record, port of the `Beam` dataclass. -/
structure Beam : Type where
  id : Nat
  color : String
  path : List Cell
deriving DecidableEq, Repr

/-- Lookup in a beam dict `self.beams[beam_id]` (beams are stored in
commit order, ids are unique). -/
def beamsGet (beams : List Beam) (i : Nat) : Option Beam :=
  beams.find? (fun b => b.id = i)

/-- Lookup `self.dependencies.get(current_beam_id, set())` for the
set-valued dependency dicts of `lvlGenerator.py`/`referenceLVLgenerator.py`. -/
def depsGet (deps : List (Nat × List Nat)) (i : Nat) : List Nat :=
  ((deps.find? (fun p => p.1 = i)).map (fun p => p.2)).getD []

/-- Python `random.randint(lo, hi)`: any value of `[lo, hi]`, chosen here
by the oracle `o`; raises `ValueError` when `lo > hi` (`Option.none`). -/
def randint (lo hi o : Nat) : Option Nat :=
  if lo ≤ hi then some (lo + o % (hi + 1 - lo)) else Option.none

/-- The boundary entry list built at the top of
`_generate_random_walk_beam`, in source order (top edge, bottom edge, left
edge, right edge).  Coordinates are `Int` because `self.rows - 1` is `-1`
on a degenerate zero-row grid. -/
def entries (rows cols : Nat) : List (Cell × Direction) :=
  ((List.range cols).map (fun c => (((0 : Int), Int.ofNat c), Direction.down)))
  ++ ((List.range cols).map (fun c =>
        (((rows : Int) - 1, Int.ofNat c), Direction.up)))
  ++ ((List.range rows).map (fun r =>
        ((Int.ofNat r, (0 : Int)), Direction.right)))
  ++ ((List.range rows).map (fun r =>
        ((Int.ofNat r, (cols : Int) - 1), Direction.left)))

/-- One growth step's candidate neighbours: the in-bounds, unoccupied,
not-yet-visited cells adjacent to `cur`, enumerated in the iteration order
of `DIRECTIONS.items()` (right, left, down, up).  Identical in all three
files (the heuristic variant additionally scores each neighbour, but every
score is positive, so the candidate set is the same). -/
def neighborCells (rows cols : Nat) (g : Grid) (path : List Cell) (cur : Cell) :
    List Cell :=
  ([(0, 1), (0, -1), (1, 0), (-1, 0)] : List (Int × Int)).filterMap
    (fun d =>
      let n : Cell := (cur.1 + d.1, cur.2 + d.2)
      if inBounds rows cols n && !gridContains g n && !path.contains n
      then some n else Option.none)

/-- The growth loop `for _ in range(target_len - 1)` of the random walks:
extend the path by an oracle-chosen admissible neighbour until the length
budget `fuel` is used up or a dead end is hit (`if not neighbors: break`).
`stepO i` is the oracle's neighbour index for step `i`. -/
def growSteps (rows cols : Nat) (g : Grid) (stepO : Nat → Nat) :
    Nat → Nat → List Cell → Cell → List Cell
  | 0, _, path, _ => path
  | fuel + 1, i, path, cur =>
    let ns := neighborCells rows cols g path cur
    match ns with
    | [] => path
    | x :: xs =>
      let nxt := (x :: xs).getD (stepO i % (x :: xs).length) x
      growSteps rows cols g stepO fuel (i + 1) (path ++ [nxt]) nxt

/-- Walk of `_is_exit_path_clear`: starting at `p` and stepping by `δ`,
return `false` as soon as a visited in-bounds cell is occupied or belongs
to the candidate's own path, `true` on leaving the grid.  Fuel stands for
the unbounded `while`; `rows + cols + 1` is always enough from an in-bounds
start. -/
def exitScan (rows cols : Nat) (g : Grid) (path : List Cell) (δ : Int × Int) :
    Cell → Nat → Bool
  | _, 0 => true
  | p, fuel + 1 =>
    if inBounds rows cols p then
      if gridContains g p || path.contains p then false
      else exitScan rows cols g path δ (p.1 + δ.1, p.2 + δ.2) fuel
    else true

/-- Port of `_is_exit_path_clear` (identical in `lvlGenerator.py` and
`referenceLVLgenerator.py`): scan the exit lane starting one step beyond
the head.  A `"none"` head direction would raise `KeyError` in Python;
modelled as a failed check (either way no beam is committed). -/
def isExitPathClear (rows cols : Nat) (g : Grid) (beamPath : List Cell)
    (headPos : Cell) (headDir : Direction) : Bool :=
  match dirDelta headDir with
  | Option.none => false
  | some δ =>
    exitScan rows cols g beamPath δ (headPos.1 + δ.1, headPos.2 + δ.2)
      (rows + cols + 1)

/-- The cells an exit-lane walk visits (in-bounds prefix of the ray from
`p` along `δ`), with the same fuel convention as `exitScan`. -/
def exitLaneCells (rows cols : Nat) (δ : Int × Int) : Cell → Nat → List Cell
  | _, 0 => []
  | p, fuel + 1 =>
    if inBounds rows cols p then
      p :: exitLaneCells rows cols δ (p.1 + δ.1, p.2 + δ.2) fuel
    else []

/-- Accumulating loop of `_find_blocking_beams`: collect the id of every
occupied cell on the lane, but drop everything (`return set()`) if the
candidate's own path appears on the lane.  `acc` models the growing Python
set (ids are appended only when absent, preserving set semantics). -/
def blockScan (rows cols : Nat) (g : Grid) (path : List Cell) (δ : Int × Int) :
    Cell → Nat → List Nat → List Nat
  | _, 0, acc => acc
  | p, fuel + 1, acc =>
    if inBounds rows cols p then
      let acc' :=
        match gridGet g p with
        | some i => if acc.contains i then acc else acc ++ [i]
        | Option.none => acc
      if path.contains p then []
      else blockScan rows cols g path δ (p.1 + δ.1, p.2 + δ.2) fuel acc'
    else acc

/-- Port of `_find_blocking_beams` (identical in `lvlGenerator.py` and
`referenceLVLgenerator.py`). -/
def findBlockingBeams (rows cols : Nat) (g : Grid) (newBeamPath : List Cell)
    (startPos : Cell) (direction : Direction) : List Nat :=
  match dirDelta direction with
  | Option.none => []
  | some δ =>
    blockScan rows cols g newBeamPath δ (startPos.1 + δ.1, startPos.2 + δ.2)
      (rows + cols + 1) []

/-- Port of `_check_for_cycle` of `lvlGenerator.py` /
`referenceLVLgenerator.py`: depth-first search through the dependency map
for `newId`.  The source recursion is unbounded; on the acyclic states the
generator actually reaches, chains are shorter than `deps.length + 1`, the
fuel callers pass. -/
def checkForCycle (deps : List (Nat × List Nat)) (newId : Nat) :
    Nat → Nat → Bool
  | _, 0 => false
  | cur, fuel + 1 =>
    cur = newId || (depsGet deps cur).any (fun nxt =>
      checkForCycle deps newId nxt fuel)

/-- Oracle for one placement attempt: the outcomes of every random draw the
attempt can make (see the file header for the correspondence).  Unused
fields are ignored by variants that lack the corresponding strategy. -/
structure AttemptO : Type where
  /-- result of `_get_random_color` (opaque to the algorithm) -/
  color : String
  /-- visiting order of the walk's boundary `entries` (`random.shuffle`) -/
  order : List Nat
  /-- walk target length draw, per tried entry -/
  wTlen : Nat → Nat
  /-- walk neighbour index, per tried entry and growth step -/
  wStep : Nat → Nat → Nat
  /-- seed start pick (`random.choice(isolated_cells)`), per try -/
  sPick : Nat → Nat
  /-- seed target length draw, per try -/
  sTlen : Nat → Nat
  /-- seed neighbour index, per try and growth step -/
  sStep : Nat → Nat → Nat
  /-- gap start pick (`random.choice(list(potential_starts))`), per try -/
  gPick : Nat → Nat
  /-- gap target length draw, per try -/
  gTlen : Nat → Nat
  /-- gap neighbour index, per try and growth step -/
  gStep : Nat → Nat → Nat

/-- Candidate beam: `(path, head_pos, head_dir)`. -/
abbrev Cand : Type := List Cell × Cell × Direction

/-- Outcome of finishing one grown path against the minimum-length gate
`if len(path) >= self.min_len`. -/
inductive FinishRes : Type where
  /-- too short: fall through to the next entry / try -/
  | tooShort
  /-- `path[-2]` raised `IndexError` (length-1 path with `min_len <= 1`).
  The plain walk loops below map this to a candidate-less failed attempt;
  the crash-aware variants (`walkEntriesGoX` and friends) propagate it as
  the escaping exception it is in Python -/
  | crash
  | found (c : Cand)

/-- Shared tail of all walk loops: accept the grown path if it reached
`min_len`, deriving head, neck and head direction exactly as the source
does (`head_pos = path[-1]`, `neck_pos = path[-2]`). -/
def finishPath (minLen : Nat) (path : List Cell) : FinishRes :=
  if minLen ≤ path.length then
    match path.reverse with
    | h :: n :: _ => FinishRes.found (path, h, getDirection n h)
    | _ => FinishRes.crash
  else FinishRes.tooShort

/-- Iteration of `_generate_random_walk_beam` over the (oracle-ordered)
boundary entries: skip occupied starts, grow a path of oracle-chosen
target length, and return the first candidate reaching `min_len`.  `j`
counts positions in the ordered list (indexing the per-entry oracles).
This plain variant collapses the two crash events (`FinishRes.crash` and
a failed `randint`) into a candidate-less return — sound for every claim
about reachable states, since either way no beam commits and the state
is unchanged; the crash-aware `walkEntriesGoX` keeps them apart. -/
def walkEntriesGo (rows cols : Nat) (g : Grid) (minLen maxLen : Nat)
    (tlenO : Nat → Nat) (stepO : Nat → Nat → Nat) :
    List (Cell × Direction) → Nat → Option Cand
  | [], _ => Option.none
  | e :: rest, j =>
    if gridContains g e.1 then
      walkEntriesGo rows cols g minLen maxLen tlenO stepO rest (j + 1)
    else
      match randint minLen maxLen (tlenO j) with
      | Option.none => Option.none
      | some tl =>
        let path := growSteps rows cols g (stepO j) (tl - 1) 0 [e.1] e.1
        match finishPath minLen path with
        | FinishRes.found c => some c
        | FinishRes.crash => Option.none
        | FinishRes.tooShort =>
          walkEntriesGo rows cols g minLen maxLen tlenO stepO rest (j + 1)

/-- Port of `_generate_random_walk_beam`.  The edge-walk generator is
textually identical in `referenceLVLgenerator.py` and `src/unnamed/
part_000`; the variant of `lvlGenerator.py` differs only in drawing the
target length with `int(random.triangular(...))` (same integer support,
see header) and in weighting the neighbour choice (all weights positive,
so the same choices are reachable); under the oracle model all three
coincide.  The entry's stored direction is ignored by the source, too. -/
def generateRandomWalkBeam (rows cols : Nat) (g : Grid) (minLen maxLen : Nat)
    (o : AttemptO) : Option Cand :=
  let ordered := o.order.filterMap (fun i => (entries rows cols)[i]?)
  walkEntriesGo rows cols g minLen maxLen o.wTlen o.wStep ordered 0

/-- Row-major enumeration of all grid coordinates (`for r ... for c ...`). -/
def productCells (rows cols : Nat) : List Cell :=
  (List.range rows).flatMap (fun r =>
    (List.range cols).map (fun c => (Int.ofNat r, Int.ofNat c)))

/-- Free cells with no occupied neighbour, port of the scan at the top of
`_generate_seed_beam` (neighbour order `DIRECTIONS.values()`; the source
applies no bounds check to the neighbours, and off-grid cells are never in
the grid dict anyway). -/
def isolatedCells (rows cols : Nat) (g : Grid) : List Cell :=
  (productCells rows cols).filter (fun p =>
    !gridContains g p &&
    (([(0, 1), (0, -1), (1, 0), (-1, 0)] : List (Int × Int)).all (fun d =>
      !gridContains g (p.1 + d.1, p.2 + d.2))))

/-- The 20-iteration retry loop shared by `_generate_seed_beam` and
`_generate_fill_gap_beam`: pick an oracle-chosen start from `starts`, grow
with target length drawn from `[min_len, min_len + 3]`, accept on reaching
`min_len`.  `k` counts tries (indexing the per-try oracles).  Like
`walkEntriesGo`, this plain variant collapses a `FinishRes.crash` (the
`IndexError` of an accepted length-1 path) into a candidate-less return;
`triesGoX` is the crash-aware variant. -/
def triesGo (rows cols : Nat) (g : Grid) (minLen : Nat) (starts : List Cell)
    (pickO tlenO : Nat → Nat) (stepO : Nat → Nat → Nat) :
    Nat → Nat → Option Cand
  | 0, _ => Option.none
  | t + 1, k =>
    let start := starts.getD (pickO k % starts.length) (0, 0)
    match randint minLen (minLen + 3) (tlenO k) with
    | Option.none => Option.none
    | some tl =>
      let path := growSteps rows cols g (stepO k) (tl - 1) 0 [start] start
      match finishPath minLen path with
      | FinishRes.found c => some c
      | FinishRes.crash => Option.none
      | FinishRes.tooShort =>
        triesGo rows cols g minLen starts pickO tlenO stepO t (k + 1)

/-- Port of `_generate_seed_beam` (strategy-specific part). -/
def generateSeedBeam (rows cols : Nat) (g : Grid) (minLen : Nat)
    (o : AttemptO) : Option Cand :=
  let cells := isolatedCells rows cols g
  if cells.isEmpty then Option.none
  else triesGo rows cols g minLen cells o.sPick o.sTlen o.sStep 20 0

/-- The `potential_starts` set of `_generate_fill_gap_beam`: free in-bounds
cells adjacent to an occupied cell, collected in first-encounter order (a
Python `set`; only membership matters downstream, since the oracle picks
the element). -/
def gapStarts (rows cols : Nat) (g : Grid) : List Cell :=
  g.foldl (fun acc p =>
    ([(0, 1), (0, -1), (1, 0), (-1, 0)] : List (Int × Int)).foldl (fun acc d =>
      let n : Cell := (p.1.1 + d.1, p.1.2 + d.2)
      if inBounds rows cols n && !gridContains g n && !acc.contains n
      then acc ++ [n] else acc) acc) []

/-- Port of `_generate_fill_gap_beam` (strategy-specific part). -/
def generateFillGapBeam (rows cols : Nat) (g : Grid) (minLen : Nat)
    (o : AttemptO) : Option Cand :=
  let starts := gapStarts rows cols g
  if starts.isEmpty then Option.none
  else triesGo rows cols g minLen starts o.gPick o.gTlen o.gStep 20 0

/-- Squared Euclidean distance between cells.  The source compares
`math.sqrt` of such integers; `sqrt` is strictly monotone and correctly
rounded, and at this repository's grid sizes distinct integer radicands
yield distinct doubles, so comparing the exact squares is faithful. -/
def sqDist (a b : Cell) : Int :=
  (a.1 - b.1) * (a.1 - b.1) + (a.2 - b.2) * (a.2 - b.2)

/-- Inner loop of `_find_farthest_empty_cell`: minimum (squared) distance
from `c` to any occupied cell; `Option.none` plays `float('inf')`. -/
def minSqDistToOccupied (g : Grid) (c : Cell) : Option Int :=
  g.foldl (fun m p =>
    let d := sqDist c p.1
    match m with
    | Option.none => some d
    | some m0 => if d < m0 then some d else some m0) Option.none

/-- Port of `_find_farthest_empty_cell` of `lvlGenerator.py`: on an empty
grid the centre `(rows // 2, cols // 2)`; otherwise the empty cell whose
minimum distance to the occupied cells is largest, first-encountered
winning ties (`max_min_distance` starts at `-1` and is beaten strictly). -/
def farthestEmptyCell (rows cols : Nat) (g : Grid) : Option Cell :=
  if g.isEmpty then some ((rows : Int) / 2, (cols : Int) / 2)
  else
    ((productCells rows cols).foldl (fun best c =>
      if gridContains g c then best
      else
        match minSqDistToOccupied g c with
        | Option.none => best
        | some d =>
          match best with
          | Option.none => some (c, d)
          | some (c0, d0) => if d0 < d then some (c, d) else some (c0, d0))
      Option.none).map (fun p => p.1)

/-- Generator state shared by `lvlGenerator.py` and
`referenceLVLgenerator.py` (the constructor `__init__` fields). -/
structure State : Type where
  rows : Nat
  cols : Nat
  numBeams : Nat
  minLen : Nat
  maxLen : Nat
  grid : Grid
  beams : List Beam
  deps : List (Nat × List Nat)
  next : Nat
deriving Repr

/-- Fresh generator state (`__init__`). -/
def initState (rows cols numBeams minLen maxLen : Nat) : State :=
  { rows := rows, cols := cols, numBeams := numBeams, minLen := minLen,
    maxLen := maxLen, grid := [], beams := [], deps := [], next := 0 }

/-- Port of `_place_beam`: record the beam, occupy its cells (the
`for cell in path` dict stores; all keys fresh on the states the generator
reaches), and store the blocker set. -/
def placeBeam (st : State) (beamId : Nat) (color : String) (path : List Cell)
    (blockers : List Nat) : State :=
  { st with
    beams := st.beams ++ [{ id := beamId, color := color, path := path }],
    grid := path.foldl (fun g c => (c, beamId) :: g) st.grid,
    deps := st.deps ++ [(beamId, blockers)] }

namespace LvlGen

/-- Port of `_try_to_place_beam` of `lvlGenerator.py`.  Notes:
the farthest-cell heuristic target is passed to the strategies only to
weight neighbour scores, all of which are positive, so under the oracle
model its value is unused (only its `None`-ness gates the attempt);
the phase tests `placed < num * 0.4` / `placed < num * 0.6` are modelled
by the exact rational comparisons `placed * 5 < num * 2` / `* 3` (for the
integers involved the binary64 comparison agrees away from the boundary,
and no claim below depends on which strategy a boundary case selects). -/
def tryPlace (st : State) (o : AttemptO) : Bool × State :=
  let beamId := st.next
  match farthestEmptyCell st.rows st.cols st.grid with
  | Option.none => (false, st)
  | some _target =>
    let cand :=
      if st.beams.length * 5 < st.numBeams * 2 || st.beams.isEmpty then
        generateRandomWalkBeam st.rows st.cols st.grid st.minLen st.maxLen o
      else if st.beams.length * 5 < st.numBeams * 3 then
        match generateSeedBeam st.rows st.cols st.grid st.minLen o with
        | some c => some c
        | Option.none => generateFillGapBeam st.rows st.cols st.grid st.minLen o
      else
        generateFillGapBeam st.rows st.cols st.grid st.minLen o
    match cand with
    | Option.none => (false, st)
    | some (path, headPos, headDir) =>
      if isExitPathClear st.rows st.cols st.grid path headPos headDir then
        let blockers :=
          findBlockingBeams st.rows st.cols st.grid path headPos headDir
        if blockers.any (fun b =>
            checkForCycle st.deps beamId b (st.deps.length + 1)) then
          (false, st)
        else
          (true, { placeBeam st beamId o.color path blockers with
                     next := st.next + 1 })
      else (false, st)

/-- Any sequence of placement attempts from a state (the reachable states
of one level's generation are exactly `runAttempts (initState ...) os`). -/
def runAttempts (st : State) (os : List AttemptO) : State :=
  os.foldl (fun s o => (tryPlace s o).2) st

end LvlGen

namespace RefGen

/-- Port of `_try_to_place_beam` of `referenceLVLgenerator.py` (edge walk
only, then the same geometry / blocker / cycle gates). -/
def tryPlace (st : State) (o : AttemptO) : Bool × State :=
  let beamId := st.next
  match generateRandomWalkBeam st.rows st.cols st.grid st.minLen st.maxLen o with
  | Option.none => (false, st)
  | some (path, headPos, headDir) =>
    if isExitPathClear st.rows st.cols st.grid path headPos headDir then
      let blockers :=
        findBlockingBeams st.rows st.cols st.grid path headPos headDir
      if blockers.any (fun b =>
          checkForCycle st.deps beamId b (st.deps.length + 1)) then
        (false, st)
      else
        (true, { placeBeam st beamId o.color path blockers with
                   next := st.next + 1 })
    else (false, st)

/-- Attempt iteration for the reference generator. -/
def runAttempts (st : State) (os : List AttemptO) : State :=
  os.foldl (fun s o => (tryPlace s o).2) st

end RefGen

namespace Copy0

/-- Generator state of `src/unnamed/part_000`, whose dependency map sends
each beam id to the single beam id it points to (`Optional[int]`). -/
structure State0 : Type where
  rows : Nat
  cols : Nat
  numBeams : Nat
  minLen : Nat
  maxLen : Nat
  grid : Grid
  beams : List Beam
  deps : List (Nat × Option Nat)
  next : Nat
deriving Repr

/-- Fresh state for the `part_000` generator. -/
def initState0 (rows cols numBeams minLen maxLen : Nat) : State0 :=
  { rows := rows, cols := cols, numBeams := numBeams, minLen := minLen,
    maxLen := maxLen, grid := [], beams := [], deps := [], next := 0 }

/-- Lookup `self.dependencies.get(current_beam_id)` of `part_000`. -/
def depsGet0 (deps : List (Nat × Option Nat)) (i : Nat) : Option Nat :=
  ((deps.find? (fun p => p.1 = i)).map (fun p => p.2)).getD Option.none

/-- Port of `_check_for_cycle` of `part_000`: follow the single-target
dependency chain looking for `newId`.  Fuel as in the set-valued variant:
on the reachable (strictly id-decreasing) dependency maps, chains are
shorter than `deps.length + 1`. -/
def checkForCycle0 (deps : List (Nat × Option Nat)) (newId : Nat) :
    Option Nat → Nat → Bool
  | Option.none, _ => false
  | some _, 0 => false
  | some cur, fuel + 1 =>
    cur = newId || checkForCycle0 deps newId (depsGet0 deps cur) fuel

/-- Port of `_find_target_beam` of `part_000`: walk from the head cell
itself (`r, c = start_pos`) along the direction and return the first beam
id whose head (`beam_path[-1]`) lies on the lane; occupied non-head cells
are stepped over.  A missing `self.beams[beam_id]` entry would be a
`KeyError`; on the states the generator builds every grid id has a beam,
and the defensive branch here keeps walking. -/
def findTargetBeam (rows cols : Nat) (g : Grid) (beams : List Beam)
    (δ : Int × Int) : Cell → Nat → Option Nat
  | _, 0 => Option.none
  | p, fuel + 1 =>
    if inBounds rows cols p then
      match gridGet g p with
      | some i =>
        match beamsGet beams i with
        | some b =>
          if b.path.getLast? = some p then some i
          else findTargetBeam rows cols g beams δ (p.1 + δ.1, p.2 + δ.2) fuel
        | Option.none =>
          findTargetBeam rows cols g beams δ (p.1 + δ.1, p.2 + δ.2) fuel
      | Option.none =>
        findTargetBeam rows cols g beams δ (p.1 + δ.1, p.2 + δ.2) fuel
    else Option.none

/-- Port of `_place_beam` of `part_000`. -/
def place0 (st : State0) (beamId : Nat) (color : String) (path : List Cell)
    (target : Option Nat) : State0 :=
  { st with
    beams := st.beams ++ [{ id := beamId, color := color, path := path }],
    grid := path.foldl (fun g c => (c, beamId) :: g) st.grid,
    deps := st.deps ++ [(beamId, target)] }

/-- Port of `_try_to_place_beam` of `part_000`: edge walk, then target
discovery and cycle check — this variant has no `_is_exit_path_clear`
call.  A `"none"` head direction would raise `KeyError` inside
`_find_target_beam`'s `DIRECTIONS[direction]`; modelled as a failed
attempt (no state change either way). -/
def tryPlace0 (st : State0) (o : AttemptO) : Bool × State0 :=
  let beamId := st.next
  match generateRandomWalkBeam st.rows st.cols st.grid st.minLen st.maxLen o with
  | Option.none => (false, st)
  | some (path, headPos, headDir) =>
    match dirDelta headDir with
    | Option.none => (false, st)
    | some δ =>
      let target :=
        findTargetBeam st.rows st.cols st.grid st.beams δ headPos
          (st.rows + st.cols + 1)
      if checkForCycle0 st.deps beamId target (st.deps.length + 1) then
        (false, st)
      else
        (true, { place0 st beamId o.color path target with
                   next := st.next + 1 })

/-- Attempt iteration for the `part_000` generator. -/
def runAttempts0 (st : State0) (os : List AttemptO) : State0 :=
  os.foldl (fun s o => (tryPlace0 s o).2) st

end Copy0

/-- One record of the serialized `cells` array. -/
structure CellEntry : Type where
  row : Int
  col : Int
  ctype : String
  dir : Direction
  color : String
deriving DecidableEq, Repr

/-- The entries `_to_json` emits for one beam (identical in all three
files): position `i` of the path gets type `start`/`path`/`end` (the `end`
test winning when a path were a single cell) and the direction toward the
next path cell, the last cell getting `"none"`. -/
def beamCells (b : Beam) : List CellEntry :=
  (List.range b.path.length).map (fun i =>
    let cell := b.path.getD i (0, 0)
    { row := cell.1, col := cell.2,
      ctype := if i = b.path.length - 1 then "end"
               else if i = 0 then "start" else "path",
      dir := if i + 1 < b.path.length
             then getDirection cell (b.path.getD (i + 1) (0, 0))
             else Direction.none,
      color := b.color })

/-- The `type: empty` entries of `_to_json`: one for every coordinate not
in the grid dict. -/
def emptyCells (rows cols : Nat) (g : Grid) : List CellEntry :=
  (productCells rows cols).filterMap (fun c =>
    if gridContains g c then Option.none
    else some { row := c.1, col := c.2, ctype := "empty",
                dir := Direction.none, color := "" })

/-- Sort key `lambda x: (x['row'], x['column'])` as a total Boolean order. -/
def cellEntryLe (a b : CellEntry) : Bool :=
  a.row < b.row || (a.row = b.row && a.col ≤ b.col)

/-- The full `cells` array of `_to_json`: beam entries in beam-commit
order, then the empty sweep, sorted by `(row, column)`. -/
def toJsonCells (rows cols : Nat) (beams : List Beam) (g : Grid) :
    List CellEntry :=
  ((beams.flatMap beamCells) ++ emptyCells rows cols g).mergeSort cellEntryLe

/-- The level dictionary `_to_json` returns (`levelNumber` and
`difficulty` are overwritten by the out-of-scope driver). -/
structure Level : Type where
  levelNumber : Nat
  gridRows : Nat
  gridCols : Nat
  difficulty : Nat
  cells : List CellEntry
deriving Repr

/-- Port of `_to_json` for the shared state shape. -/
def toJson (st : State) : Level :=
  { levelNumber := 0, gridRows := st.rows, gridCols := st.cols,
    difficulty := 0, cells := toJsonCells st.rows st.cols st.beams st.grid }

/-- Port of `_to_json` for the `part_000` state. -/
def toJson0 (st : Copy0.State0) : Level :=
  { levelNumber := 0, gridRows := st.rows, gridCols := st.cols,
    difficulty := 0, cells := toJsonCells st.rows st.cols st.beams st.grid }

/-- The retry loop of `generate`, shared shape of all three files:
`while len(self.beams) < self.num_beams and attempts < budget`, resetting
the consecutive-failure counter on success and incrementing it on
rejection.  `k` indexes the per-attempt oracles; the explicit fuel stands
for the (provably terminating) `while`, and the callers pass enough of it
(`loopFuel`) for the guard to be false on return. -/
def genLoop {σ : Type} (step : σ → AttemptO → Bool × σ) (placed : σ → Nat)
    (target : σ → Nat) (budget : Nat) (o : Nat → AttemptO) :
    σ → Nat → Nat → Nat → σ × Nat
  | st, _, att, 0 => (st, att)
  | st, k, att, fuel + 1 =>
    if placed st < target st && att < budget then
      match step st (o k) with
      | (true, st') => genLoop step placed target budget o st' (k + 1) 0 fuel
      | (false, st') =>
        genLoop step placed target budget o st' (k + 1) (att + 1) fuel
    else (st, att)

/-- Fuel sufficient for `genLoop` to reach a state where the guard fails:
one more than the maximal number of iterations (at most `num` successes,
each preceded by fewer than `budget + 1` failures). -/
def loopFuel (num budget : Nat) : Nat :=
  (num + 1) * (budget + 1) + 1

namespace LvlGen

/-- Port of `generate` of `lvlGenerator.py` (`max_attempts =
self.num_beams * 100`): returns the emitted level together with the
shortfall-warning flag (`True` exactly when the `Warning: Could only
place ...` line is printed). -/
def generate (rows cols numBeams minLen maxLen : Nat) (o : Nat → AttemptO) :
    Level × Bool :=
  let budget := numBeams * 100
  let r := genLoop tryPlace (fun s => s.beams.length) (fun s => s.numBeams)
    budget o (initState rows cols numBeams minLen maxLen) 0 0
    (loopFuel numBeams budget)
  (toJson r.1, decide (r.1.beams.length < r.1.numBeams))

end LvlGen

namespace RefGen

/-- Port of `generate` of `referenceLVLgenerator.py` (budget
`self.num_beams * 1000`). -/
def generate (rows cols numBeams minLen maxLen : Nat) (o : Nat → AttemptO) :
    Level × Bool :=
  let budget := numBeams * 1000
  let r := genLoop tryPlace (fun s => s.beams.length) (fun s => s.numBeams)
    budget o (initState rows cols numBeams minLen maxLen) 0 0
    (loopFuel numBeams budget)
  (toJson r.1, decide (r.1.beams.length < r.1.numBeams))

end RefGen

namespace Copy0

/-- Port of `generate` of `part_000` (budget `self.num_beams * 50`). -/
def generate0 (rows cols numBeams minLen maxLen : Nat) (o : Nat → AttemptO) :
    Level × Bool :=
  let budget := numBeams * 50
  let r := genLoop tryPlace0 (fun s => s.beams.length) (fun s => s.numBeams)
    budget o (initState0 rows cols numBeams minLen maxLen) 0 0
    (loopFuel numBeams budget)
  (toJson0 r.1, decide (r.1.beams.length < r.1.numBeams))

end Copy0

/-! ### Crash-aware semantics

Two statements of the walk loops can raise an uncaught exception:
`neck_pos = path[-2]` (`IndexError` when a length-1 path passes the
`len(path) >= self.min_len` gate, possible when `min_len <= 1`, in every
variant) and `random.randint(self.min_len, self.max_len)` (`ValueError`
when `min_len > max_len`) in the walk of `referenceLVLgenerator.py` —
the walk of `lvlGenerator.py` draws its target with
`int(random.triangular(...))`, which never raises, even on an inverted
range.  No file has a `try`/`except`, so such an exception aborts
`generate` with no level emitted.  The plain functions above map both
events to a candidate-less failed attempt — harmless for state
reachability (either way no beam commits and the state is unchanged), so
the reachable-state set covers the real one and invariants proved over
it stand — but the loop-level emission behaviour differs.  The functions
below translate the same source lines again, propagating the exception
as `Option.none` through attempt and loop. -/

/-- Crash-aware `walkEntriesGo` for the `randint`-drawing walk of
`referenceLVLgenerator.py`: `Option.none` is an escaping exception,
`some Option.none` the normal candidate-less return. -/
def walkEntriesGoX (rows cols : Nat) (g : Grid) (minLen maxLen : Nat)
    (tlenO : Nat → Nat) (stepO : Nat → Nat → Nat) :
    List (Cell × Direction) → Nat → Option (Option Cand)
  | [], _ => some Option.none
  | e :: rest, j =>
    if gridContains g e.1 then
      walkEntriesGoX rows cols g minLen maxLen tlenO stepO rest (j + 1)
    else
      match randint minLen maxLen (tlenO j) with
      | Option.none => Option.none
      | some tl =>
        match finishPath minLen
            (growSteps rows cols g (stepO j) (tl - 1) 0 [e.1] e.1) with
        | FinishRes.found c => some (some c)
        | FinishRes.crash => Option.none
        | FinishRes.tooShort =>
          walkEntriesGoX rows cols g minLen maxLen tlenO stepO rest (j + 1)

/-- Crash-aware `_generate_random_walk_beam` of
`referenceLVLgenerator.py`. -/
def generateRandomWalkBeamX (rows cols : Nat) (g : Grid)
    (minLen maxLen : Nat) (o : AttemptO) : Option (Option Cand) :=
  let ordered := o.order.filterMap (fun i => (entries rows cols)[i]?)
  walkEntriesGoX rows cols g minLen maxLen o.wTlen o.wStep ordered 0

/-- Python `int(random.triangular(lo, hi))` under the oracle model: an
oracle-chosen integer of the support — `[lo, hi]` when `lo ≤ hi`, and
`[hi, lo]` on an inverted range (`triangular` never raises). -/
def triangularInt (lo hi o : Nat) : Nat :=
  if lo ≤ hi then lo + o % (hi + 1 - lo) else hi + o % (lo + 1 - hi)

/-- Crash-aware `walkEntriesGo` for the `triangular`-drawing walk of
`lvlGenerator.py`: the target draw cannot raise, so the only escaping
exception is the `IndexError` of an accepted length-1 path. -/
def walkEntriesGoXT (rows cols : Nat) (g : Grid) (minLen maxLen : Nat)
    (tlenO : Nat → Nat) (stepO : Nat → Nat → Nat) :
    List (Cell × Direction) → Nat → Option (Option Cand)
  | [], _ => some Option.none
  | e :: rest, j =>
    if gridContains g e.1 then
      walkEntriesGoXT rows cols g minLen maxLen tlenO stepO rest (j + 1)
    else
      let tl := triangularInt minLen maxLen (tlenO j)
      match finishPath minLen
          (growSteps rows cols g (stepO j) (tl - 1) 0 [e.1] e.1) with
      | FinishRes.found c => some (some c)
      | FinishRes.crash => Option.none
      | FinishRes.tooShort =>
        walkEntriesGoXT rows cols g minLen maxLen tlenO stepO rest (j + 1)

/-- Crash-aware `_generate_random_walk_beam` of `lvlGenerator.py`. -/
def generateRandomWalkBeamXT (rows cols : Nat) (g : Grid)
    (minLen maxLen : Nat) (o : AttemptO) : Option (Option Cand) :=
  let ordered := o.order.filterMap (fun i => (entries rows cols)[i]?)
  walkEntriesGoXT rows cols g minLen maxLen o.wTlen o.wStep ordered 0

/-- Crash-aware 20-try loop of the seed/gap strategies. -/
def triesGoX (rows cols : Nat) (g : Grid) (minLen : Nat)
    (starts : List Cell) (pickO tlenO : Nat → Nat)
    (stepO : Nat → Nat → Nat) : Nat → Nat → Option (Option Cand)
  | 0, _ => some Option.none
  | t + 1, k =>
    let start := starts.getD (pickO k % starts.length) (0, 0)
    match randint minLen (minLen + 3) (tlenO k) with
    | Option.none => Option.none
    | some tl =>
      match finishPath minLen
          (growSteps rows cols g (stepO k) (tl - 1) 0 [start] start) with
      | FinishRes.found c => some (some c)
      | FinishRes.crash => Option.none
      | FinishRes.tooShort =>
        triesGoX rows cols g minLen starts pickO tlenO stepO t (k + 1)

/-- Crash-aware `_generate_seed_beam`. -/
def generateSeedBeamX (rows cols : Nat) (g : Grid) (minLen : Nat)
    (o : AttemptO) : Option (Option Cand) :=
  let cells := isolatedCells rows cols g
  if cells.isEmpty then some Option.none
  else triesGoX rows cols g minLen cells o.sPick o.sTlen o.sStep 20 0

/-- Crash-aware `_generate_fill_gap_beam`. -/
def generateFillGapBeamX (rows cols : Nat) (g : Grid) (minLen : Nat)
    (o : AttemptO) : Option (Option Cand) :=
  let starts := gapStarts rows cols g
  if starts.isEmpty then some Option.none
  else triesGoX rows cols g minLen starts o.gPick o.gTlen o.gStep 20 0

namespace LvlGen

/-- Crash-aware `_try_to_place_beam` of `lvlGenerator.py`.  If the seed
strategy raises, the gap-fill fallback is never reached, exactly as in
the source. -/
def tryPlaceX (st : State) (o : AttemptO) : Option (Bool × State) :=
  let beamId := st.next
  match farthestEmptyCell st.rows st.cols st.grid with
  | Option.none => some (false, st)
  | some _target =>
    let candX :=
      if st.beams.length * 5 < st.numBeams * 2 || st.beams.isEmpty then
        generateRandomWalkBeamXT st.rows st.cols st.grid st.minLen st.maxLen o
      else if st.beams.length * 5 < st.numBeams * 3 then
        match generateSeedBeamX st.rows st.cols st.grid st.minLen o with
        | Option.none => Option.none
        | some (some c) => some (some c)
        | some Option.none =>
          generateFillGapBeamX st.rows st.cols st.grid st.minLen o
      else
        generateFillGapBeamX st.rows st.cols st.grid st.minLen o
    match candX with
    | Option.none => Option.none
    | some Option.none => some (false, st)
    | some (some (path, headPos, headDir)) =>
      if isExitPathClear st.rows st.cols st.grid path headPos headDir then
        let blockers :=
          findBlockingBeams st.rows st.cols st.grid path headPos headDir
        if blockers.any (fun b =>
            checkForCycle st.deps beamId b (st.deps.length + 1)) then
          some (false, st)
        else
          some (true, { placeBeam st beamId o.color path blockers with
                          next := st.next + 1 })
      else some (false, st)

end LvlGen

namespace RefGen

/-- Crash-aware `_try_to_place_beam` of `referenceLVLgenerator.py`. -/
def tryPlaceX (st : State) (o : AttemptO) : Option (Bool × State) :=
  let beamId := st.next
  match generateRandomWalkBeamX st.rows st.cols st.grid st.minLen st.maxLen o
      with
  | Option.none => Option.none
  | some Option.none => some (false, st)
  | some (some (path, headPos, headDir)) =>
    if isExitPathClear st.rows st.cols st.grid path headPos headDir then
      let blockers :=
        findBlockingBeams st.rows st.cols st.grid path headPos headDir
      if blockers.any (fun b =>
          checkForCycle st.deps beamId b (st.deps.length + 1)) then
        some (false, st)
      else
        some (true, { placeBeam st beamId o.color path blockers with
                        next := st.next + 1 })
    else some (false, st)

end RefGen

/-- Crash-aware retry loop: an exception in an attempt escapes the
`while` and aborts the run. -/
def genLoopX {σ : Type} (step : σ → AttemptO → Option (Bool × σ))
    (placed : σ → Nat) (target : σ → Nat) (budget : Nat)
    (o : Nat → AttemptO) : σ → Nat → Nat → Nat → Option (σ × Nat)
  | st, _, att, 0 => some (st, att)
  | st, k, att, fuel + 1 =>
    if placed st < target st && att < budget then
      match step st (o k) with
      | Option.none => Option.none
      | some (true, st') =>
        genLoopX step placed target budget o st' (k + 1) 0 fuel
      | some (false, st') =>
        genLoopX step placed target budget o st' (k + 1) (att + 1) fuel
    else some (st, att)

namespace LvlGen

/-- Crash-aware `generate` of `lvlGenerator.py`: `Option.none` when an
uncaught exception aborts the run before anything is emitted. -/
def generateX (rows cols numBeams minLen maxLen : Nat)
    (o : Nat → AttemptO) : Option (Level × Bool) :=
  let budget := numBeams * 100
  (genLoopX tryPlaceX (fun s => s.beams.length) (fun s => s.numBeams)
    budget o (initState rows cols numBeams minLen maxLen) 0 0
    (loopFuel numBeams budget)).map
    (fun r => (toJson r.1, decide (r.1.beams.length < r.1.numBeams)))

end LvlGen

namespace RefGen

/-- Crash-aware `generate` of `referenceLVLgenerator.py`. -/
def generateX (rows cols numBeams minLen maxLen : Nat)
    (o : Nat → AttemptO) : Option (Level × Bool) :=
  let budget := numBeams * 1000
  (genLoopX tryPlaceX (fun s => s.beams.length) (fun s => s.numBeams)
    budget o (initState rows cols numBeams minLen maxLen) 0 0
    (loopFuel numBeams budget)).map
    (fun r => (toJson r.1, decide (r.1.beams.length < r.1.numBeams)))

end RefGen

/-! ### Derived definitions used by the verification -/

/-- Well-formedness a successful candidate `(path, head, dir)` of any of
the three growth strategies enjoys, relative to the grid it was grown
against: a duplicate-free, in-bounds, unoccupied path of length within
`[minLen, hi]` (and at least 2), whose head is the last path cell and
whose direction points from the neck to the head. -/
def CandOK (rows cols : Nat) (g : Grid) (minLen hi : Nat) (c : Cand) : Prop :=
  c.1.Nodup ∧
  (∀ q ∈ c.1, inBounds rows cols q = true) ∧
  (∀ q ∈ c.1, gridContains g q = false) ∧
  minLen ≤ c.1.length ∧ c.1.length ≤ hi ∧ 2 ≤ c.1.length ∧
  (∃ n rest, c.1.reverse = c.2.1 :: n :: rest ∧ c.2.2 = getDirection n c.2.1)

/-- Directed dependency edge `beam → blocker` of the set-valued map. -/
def Edge (deps : List (Nat × List Nat)) (a b : Nat) : Prop :=
  ∃ s, (a, s) ∈ deps ∧ b ∈ s

/-- Directed dependency edge of the single-target map of `part_000`. -/
def Edge0 (deps : List (Nat × Option Nat)) (a b : Nat) : Prop :=
  (a, some b) ∈ deps

/-- Does the walk from a committed beam's head, in its derived head
direction, until leaving the grid, revisit the beam's own path?  (The
head direction of a committed beam is the direction from `path[-2]` to
`path[-1]`, exactly as the generators derive it.) -/
def beamSelfHit (rows cols : Nat) (b : Beam) : Bool :=
  match b.path.reverse with
  | h :: n :: _ =>
    match dirDelta (getDirection n h) with
    | some δ =>
      (exitLaneCells rows cols δ (h.1 + δ.1, h.2 + δ.2)
        (rows + cols + 1)).any (fun c => b.path.contains c)
    | Option.none => false
  | _ => false

/-- Convenience constructor for concrete attempt oracles: a fixed hex
color, an entry order, a single walk target draw, per-step walk neighbour
indices, a seed pick and target draw, and per-step seed neighbour indices
(the gap-fill draws are fixed to zero; runs below never rely on them). -/
def mkOracle (order : List Nat) (wT : Nat) (wS : List Nat) (sP sT : Nat)
    (sS : List Nat) : AttemptO :=
  { color := "#FFFFFF", order := order,
    wTlen := fun _ => wT, wStep := fun _ i => wS.getD i 0,
    sPick := fun _ => sP, sTlen := fun _ => sT,
    sStep := fun _ i => sS.getD i 0,
    gPick := fun _ => 0, gTlen := fun _ => 0, gStep := fun _ _ => 0 }

/-- Invariant of the reachable states of `lvlGenerator.py` and
`referenceLVLgenerator.py`. -/
structure Inv (st : State) : Prop where
  /-- the grid keys are exactly the committed beams' cells -/
  gridKeys : (st.grid.map (fun p => p.1)).Perm
    (st.beams.flatMap (fun b => b.path))
  /-- every grid value is a previously assigned id -/
  gridVals : ∀ p ∈ st.grid, p.2 < st.next
  /-- every grid binding points into its owner's path -/
  gridOwn : ∀ p ∈ st.grid, ∃ b ∈ st.beams, b.id = p.2 ∧ p.1 ∈ b.path
  /-- the beams' cells are globally duplicate-free -/
  flatNodup : (st.beams.flatMap (fun b => b.path)).Nodup
  /-- every committed cell is in bounds -/
  pathsInB : ∀ b ∈ st.beams, ∀ q ∈ b.path, inBounds st.rows st.cols q = true
  /-- committed path lengths reach the minimum -/
  lenLo : ∀ b ∈ st.beams, st.minLen ≤ b.path.length
  /-- committed path lengths stay within the larger of the two target caps -/
  lenHi : ∀ b ∈ st.beams, b.path.length ≤ max st.maxLen (st.minLen + 3)
  /-- committed paths have a neck (length at least 2) -/
  lenTwo : ∀ b ∈ st.beams, 2 ≤ b.path.length
  /-- no committed beam's exit lane revisits its own path -/
  selfClear : ∀ b ∈ st.beams, beamSelfHit st.rows st.cols b = false
  /-- every stored blocker set is empty -/
  depsEmpty : ∀ p ∈ st.deps, p.2 = []
  /-- dependency keys are assigned ids -/
  depsKeys : ∀ p ∈ st.deps, p.1 < st.next
  /-- beam ids are assigned ids -/
  beamIds : ∀ b ∈ st.beams, b.id < st.next

/-- Invariant of the reachable states of the `part_000` generator (the
part needed for acyclicity). -/
structure Inv0 (st : Copy0.State0) : Prop where
  /-- every grid value is a previously assigned id -/
  gridVals : ∀ p ∈ st.grid, p.2 < st.next
  /-- every stored dependency target points to a strictly smaller id -/
  depsDesc : ∀ p ∈ st.deps, ∀ b, p.2 = some b → b < p.1
  /-- dependency keys are assigned ids -/
  depsKeys : ∀ p ∈ st.deps, p.1 < st.next

/-! ### Lemmas about the exit-lane scans -/

/-- Missing keys look up to nothing. -/
theorem gridGet_eq_none_of_not_contains {g : Grid} {c : Cell}
    (h : gridContains g c = false) : gridGet g c = Option.none := by
  unfold gridContains at h
  unfold gridGet
  rw [List.find?_eq_none.mpr (fun p hp => by
    have := List.any_eq_false.mp h p hp
    simpa using this)]
  rfl

/-- Unfolding equation of `exitScan` at positive fuel. -/
theorem exitScan_succ (rows cols : Nat) (g : Grid) (path : List Cell)
    (δ : Int × Int) (p : Cell) (n : Nat) :
    exitScan rows cols g path δ p (n + 1) =
      if inBounds rows cols p then
        if gridContains g p || path.contains p then false
        else exitScan rows cols g path δ (p.1 + δ.1, p.2 + δ.2) n
      else true := rfl

/-- Unfolding equation of `exitLaneCells` at positive fuel. -/
theorem exitLaneCells_succ (rows cols : Nat) (δ : Int × Int) (p : Cell)
    (n : Nat) :
    exitLaneCells rows cols δ p (n + 1) =
      if inBounds rows cols p then
        p :: exitLaneCells rows cols δ (p.1 + δ.1, p.2 + δ.2) n
      else [] := rfl

/-- The geometry scan fails exactly when some visited lane cell is occupied
or belongs to the candidate's own path. -/
theorem exitScan_false_iff (rows cols : Nat) (g : Grid) (path : List Cell)
    (δ : Int × Int) :
    ∀ (fuel : Nat) (p : Cell),
      exitScan rows cols g path δ p fuel = false ↔
        ∃ c ∈ exitLaneCells rows cols δ p fuel,
          (gridContains g c = true ∨ c ∈ path) := by
  intro fuel
  induction fuel with
  | zero => intro p; simp [exitScan, exitLaneCells]
  | succ n ih =>
    intro p
    by_cases hb : inBounds rows cols p = true
    · by_cases hg : gridContains g p = true
      · constructor
        · intro _
          refine ⟨p, ?_, Or.inl hg⟩
          rw [exitLaneCells_succ, if_pos hb]
          exact List.mem_cons_self _ _
        · intro _
          rw [exitScan_succ, if_pos hb, if_pos (by rw [hg]; rfl)]
      · by_cases hp : p ∈ path
        · have hp' : path.contains p = true := by simpa using hp
          constructor
          · intro _
            refine ⟨p, ?_, Or.inr hp⟩
            rw [exitLaneCells_succ, if_pos hb]
            exact List.mem_cons_self _ _
          · intro _
            rw [exitScan_succ, if_pos hb, if_pos (by rw [hp']; simp)]
        · have hg' : gridContains g p = false := by simpa using hg
          have hp' : path.contains p = false := by
            simpa using hp
          have hscan : exitScan rows cols g path δ p (n + 1)
              = exitScan rows cols g path δ (p.1 + δ.1, p.2 + δ.2) n := by
            rw [exitScan_succ, if_pos hb, if_neg (by rw [hg', hp']; simp)]
          have hlane : exitLaneCells rows cols δ p (n + 1)
              = p :: exitLaneCells rows cols δ (p.1 + δ.1, p.2 + δ.2) n := by
            rw [exitLaneCells_succ, if_pos hb]
          rw [hscan, hlane, ih]
          constructor
          · rintro ⟨c, hc, hor⟩
            exact ⟨c, List.mem_cons_of_mem _ hc, hor⟩
          · rintro ⟨c, hc, hor⟩
            rcases List.mem_cons.mp hc with rfl | hc'
            · rcases hor with h | h
              · rw [h] at hg'; cases hg'
              · have hcontr : path.contains c = true := by simpa using h
                rw [hcontr] at hp'; cases hp'
            · exact ⟨c, hc', hor⟩
    · have hb' : ¬ (inBounds rows cols p = true) := hb
      constructor
      · intro hf
        rw [exitScan_succ, if_neg hb'] at hf
        cases hf
      · rintro ⟨c, hc, _⟩
        rw [exitLaneCells_succ, if_neg hb'] at hc
        cases hc

/-- On a lane the geometry check accepted, one scan step sees a free cell
and continues; convenient eliminator for the `fuel + 1` case. -/
theorem exitScan_succ_true (rows cols : Nat) (g : Grid) (path : List Cell)
    (δ : Int × Int) (n : Nat) (p : Cell) (hb : inBounds rows cols p = true)
    (h : exitScan rows cols g path δ p (n + 1) = true) :
    gridContains g p = false ∧ path.contains p = false ∧
      exitScan rows cols g path δ (p.1 + δ.1, p.2 + δ.2) n = true := by
  by_cases hocc : (gridContains g p || path.contains p) = true
  · exfalso
    have hf : exitScan rows cols g path δ p (n + 1) = false := by
      rw [exitScan_succ, if_pos hb, if_pos hocc]
    rw [hf] at h; cases h
  · have hocc' : (gridContains g p || path.contains p) = false := by
      simpa using hocc
    obtain ⟨h1, h2⟩ := Bool.or_eq_false_iff.mp hocc'
    refine ⟨h1, h2, ?_⟩
    have he : exitScan rows cols g path δ p (n + 1)
        = exitScan rows cols g path δ (p.1 + δ.1, p.2 + δ.2) n := by
      rw [exitScan_succ, if_pos hb, if_neg hocc]
    rw [← he]; exact h

/-- On a lane the geometry check accepted, the blocker scan adds nothing to
its accumulator. -/
theorem blockScan_of_clear (rows cols : Nat) (g : Grid) (path : List Cell)
    (δ : Int × Int) :
    ∀ (fuel : Nat) (p : Cell) (acc : List Nat),
      exitScan rows cols g path δ p fuel = true →
      blockScan rows cols g path δ p fuel acc = acc := by
  intro fuel
  induction fuel with
  | zero => intro p acc _; simp [blockScan]
  | succ n ih =>
    intro p acc hclear
    by_cases hb : inBounds rows cols p = true
    · obtain ⟨hg, hp, hrec⟩ :=
        exitScan_succ_true rows cols g path δ n p hb hclear
      simp only [blockScan, hb, if_true,
        gridGet_eq_none_of_not_contains hg, hp]
      exact ih _ _ hrec
    · have hb' : inBounds rows cols p = false := by simpa using hb
      simp [blockScan, hb']

/-- When the geometry check accepts, no visited lane cell belongs to the
candidate's own path (nor to the grid). -/
theorem exitScan_true_lane_free (rows cols : Nat) (g : Grid)
    (path : List Cell) (δ : Int × Int) (fuel : Nat) (p : Cell)
    (hclear : exitScan rows cols g path δ p fuel = true) :
    ∀ c ∈ exitLaneCells rows cols δ p fuel,
      gridContains g c = false ∧ c ∉ path := by
  intro c hc
  constructor
  · by_contra hcon
    have hg : gridContains g c = true := by simpa using hcon
    have hf := (exitScan_false_iff rows cols g path δ fuel p).mpr
      ⟨c, hc, Or.inl hg⟩
    rw [hclear] at hf; cases hf
  · intro hmem
    have hf := (exitScan_false_iff rows cols g path δ fuel p).mpr
      ⟨c, hc, Or.inr hmem⟩
    rw [hclear] at hf; cases hf

/-! ### Lemmas about candidate generation -/

/-- Splitting a Boolean conjunction hypothesis. -/
theorem and_true_split {a b : Bool} (h : (a && b) = true) :
    a = true ∧ b = true := by simpa using h

/-- Every neighbour a growth step may pick is in bounds, unoccupied and not
yet on the path. -/
theorem mem_neighborCells {rows cols : Nat} {g : Grid} {path : List Cell}
    {cur q : Cell} (h : q ∈ neighborCells rows cols g path cur) :
    inBounds rows cols q = true ∧ gridContains g q = false ∧ q ∉ path := by
  unfold neighborCells at h
  rcases List.mem_filterMap.mp h with ⟨d, _, hd⟩
  by_cases hcond : (inBounds rows cols (cur.1 + d.1, cur.2 + d.2) &&
      !gridContains g (cur.1 + d.1, cur.2 + d.2) &&
      !(path.contains (cur.1 + d.1, cur.2 + d.2))) = true
  · rw [if_pos hcond] at hd
    cases hd
    have h1 := and_true_split hcond
    have h2 := and_true_split h1.1
    refine ⟨h2.1, by simpa using h2.2, by simpa using h1.2⟩
  · rw [if_neg hcond] at hd
    cases hd

/-- On a degenerate zero-row or zero-column grid nothing is in bounds, so a
growth step finds no neighbours. -/
theorem neighborCells_eq_nil_of_degenerate {rows cols : Nat} (g : Grid)
    (path : List Cell) (cur : Cell) (h : rows = 0 ∨ cols = 0) :
    neighborCells rows cols g path cur = [] := by
  have hnb : ∀ q : Cell, inBounds rows cols q = false := by
    intro q
    rw [Bool.eq_false_iff]
    intro hq
    unfold inBounds at hq
    simp only [Bool.and_eq_true, decide_eq_true_eq] at hq
    obtain ⟨⟨⟨hq1, hq2⟩, hq3⟩, hq4⟩ := hq
    rcases h with rfl | rfl <;> omega
  unfold neighborCells
  apply List.filterMap_eq_nil_iff.mpr
  intro d _
  have hcond : ¬ ((inBounds rows cols (cur.1 + d.1, cur.2 + d.2) &&
      !gridContains g (cur.1 + d.1, cur.2 + d.2) &&
      !(path.contains (cur.1 + d.1, cur.2 + d.2))) = true) := by
    intro hc
    have h1 := (and_true_split (and_true_split hc).1).1
    rw [hnb _] at h1
    cases h1
  rw [if_neg hcond]

/-- Unfolding equation of `growSteps` at positive fuel. -/
theorem growSteps_succ (rows cols : Nat) (g : Grid) (stepO : Nat → Nat)
    (fuel i : Nat) (path : List Cell) (cur : Cell) :
    growSteps rows cols g stepO (fuel + 1) i path cur =
      match neighborCells rows cols g path cur with
      | [] => path
      | x :: xs =>
        growSteps rows cols g stepO fuel (i + 1)
          (path ++ [(x :: xs).getD (stepO i % (x :: xs).length) x])
          ((x :: xs).getD (stepO i % (x :: xs).length) x) := rfl

/-- Growth step at a dead end. -/
theorem growSteps_succ_nil (rows cols : Nat) (g : Grid) (stepO : Nat → Nat)
    (fuel i : Nat) (path : List Cell) (cur : Cell)
    (h : neighborCells rows cols g path cur = []) :
    growSteps rows cols g stepO (fuel + 1) i path cur = path := by
  rw [growSteps_succ, h]

/-- Growth step with at least one admissible neighbour. -/
theorem growSteps_succ_cons (rows cols : Nat) (g : Grid) (stepO : Nat → Nat)
    (fuel i : Nat) (path : List Cell) (cur x : Cell) (xs : List Cell)
    (h : neighborCells rows cols g path cur = x :: xs) :
    growSteps rows cols g stepO (fuel + 1) i path cur =
      growSteps rows cols g stepO fuel (i + 1)
        (path ++ [(x :: xs).getD (stepO i % (x :: xs).length) x])
        ((x :: xs).getD (stepO i % (x :: xs).length) x) := by
  rw [growSteps_succ, h]

/-- The growth loop only appends fresh, in-bounds, unoccupied cells, keeps
the path duplicate-free, and adds at most `fuel` cells. -/
theorem growSteps_sound (rows cols : Nat) (g : Grid) (stepO : Nat → Nat) :
    ∀ (fuel i : Nat) (path : List Cell) (cur : Cell), path.Nodup →
      ∃ ext, growSteps rows cols g stepO fuel i path cur = path ++ ext ∧
        (path ++ ext).Nodup ∧
        (∀ q ∈ ext, inBounds rows cols q = true ∧ gridContains g q = false) ∧
        (path ++ ext).length ≤ path.length + fuel := by
  intro fuel
  induction fuel with
  | zero =>
    intro i path cur hnd
    exact ⟨[], by simp [growSteps], by simpa using hnd, by simp, by simp⟩
  | succ n ih =>
    intro i path cur hnd
    cases hns : neighborCells rows cols g path cur with
    | nil =>
      rw [growSteps_succ_nil rows cols g stepO n i path cur hns]
      exact ⟨[], by simp, by simpa using hnd, by simp, by simp⟩
    | cons x xs =>
      rw [growSteps_succ_cons rows cols g stepO n i path cur x xs hns]
      have hlenpos : 0 < (x :: xs).length := by simp
      have hidx : stepO i % (x :: xs).length < (x :: xs).length :=
        Nat.mod_lt _ hlenpos
      have hmem : (x :: xs).getD (stepO i % (x :: xs).length) x ∈ x :: xs := by
        rw [List.getD_eq_getElem _ _ hidx]
        exact List.getElem_mem hidx
      have hmem2 : (x :: xs).getD (stepO i % (x :: xs).length) x ∈
          neighborCells rows cols g path cur := by
        rw [hns]; exact hmem
      obtain ⟨hinb, hfresh, hnp⟩ := mem_neighborCells hmem2
      have hnd' : (path ++ [(x :: xs).getD (stepO i % (x :: xs).length) x]).Nodup := by
        rw [List.nodup_append]
        refine ⟨hnd, List.nodup_singleton _, ?_⟩
        intro a ha hb
        rcases List.mem_singleton.mp hb with rfl
        exact hnp ha
      obtain ⟨ext', heq, hnd2, hprops, hlen⟩ := ih (i + 1)
        (path ++ [(x :: xs).getD (stepO i % (x :: xs).length) x])
        ((x :: xs).getD (stepO i % (x :: xs).length) x) hnd'
      refine ⟨[(x :: xs).getD (stepO i % (x :: xs).length) x] ++ ext',
        ?_, ?_, ?_, ?_⟩
      · rw [heq, List.append_assoc]
      · rw [← List.append_assoc]; exact hnd2
      · intro q hq
        rcases List.mem_append.mp hq with hq1 | hq2
        · rcases List.mem_singleton.mp hq1 with rfl
          exact ⟨hinb, hfresh⟩
        · exact hprops q hq2
      · rw [← List.append_assoc]
        calc (path ++ [(x :: xs).getD (stepO i % (x :: xs).length) x]
              ++ ext').length
            ≤ (path ++ [(x :: xs).getD (stepO i % (x :: xs).length) x]).length
              + n := hlen
        _ = path.length + 1 + n := by simp
        _ = path.length + (n + 1) := by omega

/-- On a degenerate grid the growth loop never extends the path. -/
theorem growSteps_degenerate (rows cols : Nat) (g : Grid) (stepO : Nat → Nat)
    (hdeg : rows = 0 ∨ cols = 0) :
    ∀ (fuel i : Nat) (path : List Cell) (cur : Cell),
      growSteps rows cols g stepO fuel i path cur = path := by
  intro fuel
  induction fuel with
  | zero => intro i path cur; rfl
  | succ n _ =>
    intro i path cur
    exact growSteps_succ_nil rows cols g stepO n i path cur
      (neighborCells_eq_nil_of_degenerate g path cur hdeg)

/-- Membership in the row-major coordinate enumeration is the bounds
test. -/
theorem mem_productCells {rows cols : Nat} {c : Cell} :
    c ∈ productCells rows cols ↔ inBounds rows cols c = true := by
  unfold productCells
  rw [List.mem_flatMap]
  constructor
  · rintro ⟨r, hr, hc⟩
    rcases List.mem_map.mp hc with ⟨c0, hc0, rfl⟩
    rw [List.mem_range] at hr
    rw [List.mem_range] at hc0
    simp only [inBounds, Bool.and_eq_true, decide_eq_true_eq]
    refine ⟨⟨⟨?_, ?_⟩, ?_⟩, ?_⟩ <;> simp [Int.ofNat_eq_coe] <;> omega
  · intro hb
    simp only [inBounds, Bool.and_eq_true, decide_eq_true_eq] at hb
    obtain ⟨⟨⟨h1, h2⟩, h3⟩, h4⟩ := hb
    have hr' : c.1.toNat ∈ List.range rows := List.mem_range.mpr (by omega)
    have hc' : c.2.toNat ∈ List.range cols := List.mem_range.mpr (by omega)
    refine ⟨c.1.toNat, hr', ?_⟩
    apply List.mem_map.mpr
    refine ⟨c.2.toNat, hc', ?_⟩
    obtain ⟨c1, c2⟩ := c
    simp only at h1 h3
    simp [Int.ofNat_eq_coe, Int.toNat_of_nonneg h1, Int.toNat_of_nonneg h3]

/-- Every boundary entry's start cell is in bounds, unless the grid is
degenerate. -/
theorem entries_start_inBounds {rows cols : Nat} {e : Cell × Direction}
    (he : e ∈ entries rows cols) (hr : 1 ≤ rows) (hc : 1 ≤ cols) :
    inBounds rows cols e.1 = true := by
  unfold entries at he
  simp only [List.mem_append] at he
  rcases he with ((h1 | h2) | h3) | h4
  · rcases List.mem_map.mp h1 with ⟨c0, hc0, rfl⟩
    rw [List.mem_range] at hc0
    simp only [inBounds, Bool.and_eq_true, decide_eq_true_eq]
    refine ⟨⟨⟨?_, ?_⟩, ?_⟩, ?_⟩ <;> simp [Int.ofNat_eq_coe] <;> omega
  · rcases List.mem_map.mp h2 with ⟨c0, hc0, rfl⟩
    rw [List.mem_range] at hc0
    simp only [inBounds, Bool.and_eq_true, decide_eq_true_eq]
    refine ⟨⟨⟨?_, ?_⟩, ?_⟩, ?_⟩ <;> simp [Int.ofNat_eq_coe] <;> omega
  · rcases List.mem_map.mp h3 with ⟨r0, hr0, rfl⟩
    rw [List.mem_range] at hr0
    simp only [inBounds, Bool.and_eq_true, decide_eq_true_eq]
    refine ⟨⟨⟨?_, ?_⟩, ?_⟩, ?_⟩ <;> simp [Int.ofNat_eq_coe] <;> omega
  · rcases List.mem_map.mp h4 with ⟨r0, hr0, rfl⟩
    rw [List.mem_range] at hr0
    simp only [inBounds, Bool.and_eq_true, decide_eq_true_eq]
    refine ⟨⟨⟨?_, ?_⟩, ?_⟩, ?_⟩ <;> simp [Int.ofNat_eq_coe] <;> omega

/-! ### Soundness of the three candidate strategies -/

/-- A successful `randint` draw lies in its range. -/
theorem randint_sound {lo hi o v : Nat} (h : randint lo hi o = some v) :
    lo ≤ v ∧ v ≤ hi ∧ lo ≤ hi := by
  unfold randint at h
  by_cases hle : lo ≤ hi
  · rw [if_pos hle] at h
    have hmod : o % (hi + 1 - lo) < hi + 1 - lo := Nat.mod_lt _ (by omega)
    cases h
    omega
  · rw [if_neg hle] at h; cases h

/-- Elimination of a successful `finishPath`. -/
theorem finishPath_found {minLen : Nat} {path : List Cell} {c : Cand}
    (h : finishPath minLen path = FinishRes.found c) :
    minLen ≤ path.length ∧ c.1 = path ∧
      ∃ n rest, path.reverse = c.2.1 :: n :: rest ∧
        c.2.2 = getDirection n c.2.1 := by
  unfold finishPath at h
  by_cases hlen : minLen ≤ path.length
  · rw [if_pos hlen] at h
    cases hrev : path.reverse with
    | nil => rw [hrev] at h; cases h
    | cons a t =>
      cases t with
      | nil => rw [hrev] at h; cases h
      | cons b rest =>
        rw [hrev] at h
        cases h
        exact ⟨hlen, rfl, b, rest, rfl, rfl⟩
  · rw [if_neg hlen] at h; cases h

/-- Growing from a free start cell and accepting through `finishPath`
yields a well-formed candidate (cap `1 + (tl - 1)` cells, `tl` being the
drawn target length). -/
theorem grow_finish_sound (rows cols : Nat) (g : Grid) (minLen : Nat)
    (stepO : Nat → Nat) (tl : Nat) (start : Cell)
    (hfree : gridContains g start = false)
    (hstart : inBounds rows cols start = true ∨ rows = 0 ∨ cols = 0)
    (c : Cand)
    (hfin : finishPath minLen
      (growSteps rows cols g stepO (tl - 1) 0 [start] start)
      = FinishRes.found c) :
    CandOK rows cols g minLen (1 + (tl - 1)) c := by
  obtain ⟨ext, heq, hnd, hprops, hlen⟩ :=
    growSteps_sound rows cols g stepO (tl - 1) 0 [start] start
      (List.nodup_singleton _)
  obtain ⟨hmin, hc1, n, rest, hrev, hdir⟩ := finishPath_found hfin
  rw [heq] at hc1 hrev hmin
  have hlen2 : 2 ≤ ([start] ++ ext).length := by
    have := congrArg List.length hrev
    simp only [List.length_reverse, List.length_cons] at this
    omega
  have hextne : ext ≠ [] := by
    intro hext
    rw [hext] at hlen2
    simp at hlen2
  refine ⟨?_, ?_, ?_, ?_, ?_, ?_, ?_⟩
  · rw [hc1]; exact hnd
  · intro q hq
    rw [hc1] at hq
    rcases List.mem_append.mp hq with hq1 | hq2
    · have hq1' := List.mem_singleton.mp hq1
      rw [hq1']
      rcases hstart with hs | hdeg
      · exact hs
      · exfalso
        have := growSteps_degenerate rows cols g stepO hdeg (tl - 1) 0
          [start] start
        rw [this] at heq
        have hl := congrArg List.length heq
        simp only [List.length_append, List.length_singleton] at hl
        exact hextne (List.eq_nil_of_length_eq_zero (by omega))
    · exact (hprops q hq2).1
  · intro q hq
    rw [hc1] at hq
    rcases List.mem_append.mp hq with hq1 | hq2
    · have hq1' := List.mem_singleton.mp hq1
      rw [hq1']
      exact hfree
    · exact (hprops q hq2).2
  · rw [hc1]; exact hmin
  · rw [hc1]
    simpa using hlen
  · rw [hc1]; exact hlen2
  · rw [hc1]
    exact ⟨n, rest, hrev, hdir⟩

/-- Unfolding equations of `walkEntriesGo`. -/
theorem walkEntriesGo_nil (rows cols : Nat) (g : Grid) (minLen maxLen : Nat)
    (tlenO : Nat → Nat) (stepO : Nat → Nat → Nat) (j : Nat) :
    walkEntriesGo rows cols g minLen maxLen tlenO stepO [] j =
      Option.none := rfl

/-- Unfolding of `walkEntriesGo` on a nonempty entry list. -/
theorem walkEntriesGo_cons (rows cols : Nat) (g : Grid) (minLen maxLen : Nat)
    (tlenO : Nat → Nat) (stepO : Nat → Nat → Nat) (e : Cell × Direction)
    (rest : List (Cell × Direction)) (j : Nat) :
    walkEntriesGo rows cols g minLen maxLen tlenO stepO (e :: rest) j =
      if gridContains g e.1 then
        walkEntriesGo rows cols g minLen maxLen tlenO stepO rest (j + 1)
      else
        match randint minLen maxLen (tlenO j) with
        | Option.none => Option.none
        | some tl =>
          match finishPath minLen
              (growSteps rows cols g (stepO j) (tl - 1) 0 [e.1] e.1) with
          | FinishRes.found c => some c
          | FinishRes.crash => Option.none
          | FinishRes.tooShort =>
            walkEntriesGo rows cols g minLen maxLen tlenO stepO rest (j + 1)
      := rfl

/-- A candidate the edge-walk iteration returns is well-formed with cap
`maxLen`. -/
theorem walkEntriesGo_sound (rows cols : Nat) (g : Grid)
    (minLen maxLen : Nat) (tlenO : Nat → Nat) (stepO : Nat → Nat → Nat) :
    ∀ (es : List (Cell × Direction)) (j : Nat) (c : Cand),
      (∀ e ∈ es, e ∈ entries rows cols) →
      walkEntriesGo rows cols g minLen maxLen tlenO stepO es j = some c →
      CandOK rows cols g minLen maxLen c := by
  intro es
  induction es with
  | nil =>
    intro j c _ h
    rw [walkEntriesGo_nil] at h
    cases h
  | cons e rest ih =>
    intro j c hes h
    rw [walkEntriesGo_cons] at h
    by_cases hocc : gridContains g e.1 = true
    · rw [if_pos hocc] at h
      exact ih (j + 1) c (fun x hx => hes x (List.mem_cons_of_mem _ hx)) h
    · have hocc' : gridContains g e.1 = false := by simpa using hocc
      rw [if_neg hocc] at h
      split at h
      · cases h
      · rename_i tl hri
        obtain ⟨htl1, htl2, _⟩ := randint_sound hri
        split at h
        · rename_i c' hfin
          cases h
          have hstart : inBounds rows cols e.1 = true ∨
              rows = 0 ∨ cols = 0 := by
            by_cases hdeg : rows = 0 ∨ cols = 0
            · exact Or.inr hdeg
            · refine Or.inl (entries_start_inBounds
                (hes e (List.mem_cons_self _ _)) ?_ ?_) <;> omega
          obtain ⟨h1, h2, h3, h4, h5, h6, h7⟩ :=
            grow_finish_sound rows cols g minLen (stepO j) tl e.1
              hocc' hstart c hfin
          exact ⟨h1, h2, h3, h4, by omega, h6, h7⟩
        · cases h
        · exact ih (j + 1) c (fun x hx => hes x (List.mem_cons_of_mem _ hx)) h

/-- A candidate of `_generate_random_walk_beam` is well-formed with cap
`maxLen`. -/
theorem generateRandomWalkBeam_sound (rows cols : Nat) (g : Grid)
    (minLen maxLen : Nat) (o : AttemptO) (c : Cand)
    (h : generateRandomWalkBeam rows cols g minLen maxLen o = some c) :
    CandOK rows cols g minLen maxLen c := by
  unfold generateRandomWalkBeam at h
  refine walkEntriesGo_sound rows cols g minLen maxLen o.wTlen o.wStep
    _ 0 c ?_ h
  intro e he
  rcases List.mem_filterMap.mp he with ⟨i, _, hi⟩
  obtain ⟨hlt, hget⟩ := List.getElem?_eq_some_iff.mp hi
  rw [← hget]
  exact List.getElem_mem hlt

/-- Folds that only ever insert elements satisfying `P` preserve `P`. -/
theorem foldl_preserve {α β : Type} (P : β → Prop) (f : List β → α → List β)
    (hf : ∀ acc a, (∀ q ∈ acc, P q) → ∀ q ∈ f acc a, P q) :
    ∀ (l : List α) (acc : List β), (∀ q ∈ acc, P q) →
      ∀ q ∈ l.foldl f acc, P q := by
  intro l
  induction l with
  | nil => intro acc h q hq; exact h q hq
  | cons a t ih =>
    intro acc h q hq
    exact ih (f acc a) (hf acc a h) q hq

/-- Every `potential_starts` cell is in bounds and unoccupied. -/
theorem gapStarts_prop (rows cols : Nat) (g : Grid) :
    ∀ q ∈ gapStarts rows cols g,
      inBounds rows cols q = true ∧ gridContains g q = false := by
  unfold gapStarts
  refine foldl_preserve
    (fun q => inBounds rows cols q = true ∧ gridContains g q = false)
    _ ?_ g [] (by simp)
  intro acc a hacc
  refine foldl_preserve
    (fun q => inBounds rows cols q = true ∧ gridContains g q = false)
    _ ?_ _ acc hacc
  intro acc2 d hacc2 q hq
  dsimp only [] at hq
  by_cases hcond : (inBounds rows cols (a.1.1 + d.1, a.1.2 + d.2) &&
      !gridContains g (a.1.1 + d.1, a.1.2 + d.2) &&
      !acc2.contains (a.1.1 + d.1, a.1.2 + d.2)) = true
  · rw [if_pos hcond] at hq
    rcases List.mem_append.mp hq with hq1 | hq2
    · exact hacc2 q hq1
    · rcases List.mem_singleton.mp hq2 with rfl
      have h1 := and_true_split (and_true_split hcond).1
      exact ⟨h1.1, by simpa using h1.2⟩
  · rw [if_neg hcond] at hq
    exact hacc2 q hq

/-- Every isolated cell is in bounds and unoccupied. -/
theorem isolatedCells_prop (rows cols : Nat) (g : Grid) :
    ∀ q ∈ isolatedCells rows cols g,
      inBounds rows cols q = true ∧ gridContains g q = false := by
  intro q hq
  unfold isolatedCells at hq
  have hmem := List.mem_of_mem_filter hq
  have hcond := List.of_mem_filter hq
  refine ⟨mem_productCells.mp hmem, ?_⟩
  have h1 := (and_true_split hcond).1
  simpa using h1

/-- Unfolding equations of `triesGo`. -/
theorem triesGo_zero (rows cols : Nat) (g : Grid) (minLen : Nat)
    (starts : List Cell) (pickO tlenO : Nat → Nat)
    (stepO : Nat → Nat → Nat) (k : Nat) :
    triesGo rows cols g minLen starts pickO tlenO stepO 0 k =
      Option.none := rfl

/-- Unfolding of `triesGo` with tries remaining. -/
theorem triesGo_succ (rows cols : Nat) (g : Grid) (minLen : Nat)
    (starts : List Cell) (pickO tlenO : Nat → Nat)
    (stepO : Nat → Nat → Nat) (t k : Nat) :
    triesGo rows cols g minLen starts pickO tlenO stepO (t + 1) k =
      match randint minLen (minLen + 3) (tlenO k) with
      | Option.none => Option.none
      | some tl =>
        match finishPath minLen
            (growSteps rows cols g (stepO k) (tl - 1) 0
              [starts.getD (pickO k % starts.length) (0, 0)]
              (starts.getD (pickO k % starts.length) (0, 0))) with
        | FinishRes.found c => some c
        | FinishRes.crash => Option.none
        | FinishRes.tooShort =>
          triesGo rows cols g minLen starts pickO tlenO stepO t (k + 1)
      := rfl

/-- A candidate of the 20-try loop is well-formed with cap `minLen + 3`,
provided every possible start is in bounds and unoccupied. -/
theorem triesGo_sound (rows cols : Nat) (g : Grid) (minLen : Nat)
    (starts : List Cell) (pickO tlenO : Nat → Nat)
    (stepO : Nat → Nat → Nat)
    (hne : starts ≠ [])
    (hstarts : ∀ s ∈ starts,
      inBounds rows cols s = true ∧ gridContains g s = false) :
    ∀ (t k : Nat) (c : Cand),
      triesGo rows cols g minLen starts pickO tlenO stepO t k = some c →
      CandOK rows cols g minLen (minLen + 3) c := by
  intro t
  induction t with
  | zero =>
    intro k c h
    rw [triesGo_zero] at h
    cases h
  | succ n ih =>
    intro k c h
    rw [triesGo_succ] at h
    split at h
    · cases h
    · rename_i tl hri
      obtain ⟨htl1, htl2, _⟩ := randint_sound hri
      have hlenpos : 0 < starts.length := by
        cases starts with
        | nil => exact absurd rfl hne
        | cons a t => simp
      have hmem : starts.getD (pickO k % starts.length) (0, 0) ∈ starts := by
        rw [List.getD_eq_getElem _ _ (Nat.mod_lt _ hlenpos)]
        exact List.getElem_mem _
      obtain ⟨hsinb, hsfree⟩ := hstarts _ hmem
      split at h
      · rename_i c' hfin
        cases h
        obtain ⟨h1, h2, h3, h4, h5, h6, h7⟩ :=
          grow_finish_sound rows cols g minLen (stepO k) tl _
            hsfree (Or.inl hsinb) c hfin
        exact ⟨h1, h2, h3, h4, by omega, h6, h7⟩
      · cases h
      · exact ih (k + 1) c h

/-- A candidate of `_generate_seed_beam` is well-formed with cap
`minLen + 3`. -/
theorem generateSeedBeam_sound (rows cols : Nat) (g : Grid) (minLen : Nat)
    (o : AttemptO) (c : Cand)
    (h : generateSeedBeam rows cols g minLen o = some c) :
    CandOK rows cols g minLen (minLen + 3) c := by
  unfold generateSeedBeam at h
  by_cases hemp : (isolatedCells rows cols g).isEmpty = true
  · rw [if_pos hemp] at h; cases h
  · rw [if_neg hemp] at h
    refine triesGo_sound rows cols g minLen _ o.sPick o.sTlen o.sStep
      ?_ (isolatedCells_prop rows cols g) 20 0 c h
    intro hnil
    rw [hnil] at hemp
    exact hemp rfl

/-- A candidate of `_generate_fill_gap_beam` is well-formed with cap
`minLen + 3`. -/
theorem generateFillGapBeam_sound (rows cols : Nat) (g : Grid)
    (minLen : Nat) (o : AttemptO) (c : Cand)
    (h : generateFillGapBeam rows cols g minLen o = some c) :
    CandOK rows cols g minLen (minLen + 3) c := by
  unfold generateFillGapBeam at h
  by_cases hemp : (gapStarts rows cols g).isEmpty = true
  · rw [if_pos hemp] at h; cases h
  · rw [if_neg hemp] at h
    refine triesGo_sound rows cols g minLen _ o.gPick o.gTlen o.gStep
      ?_ (gapStarts_prop rows cols g) 20 0 c h
    intro hnil
    rw [hnil] at hemp
    exact hemp rfl

/-! ### Shape of a placement attempt -/

/-- Weakening the length cap of a well-formed candidate. -/
theorem CandOK.mono {rows cols : Nat} {g : Grid} {minLen hi hi' : Nat}
    {c : Cand} (h : CandOK rows cols g minLen hi c) (hh : hi ≤ hi') :
    CandOK rows cols g minLen hi' c := by
  obtain ⟨h1, h2, h3, h4, h5, h6, h7⟩ := h
  exact ⟨h1, h2, h3, h4, le_trans h5 hh, h6, h7⟩

/-- A passing geometry check names a real direction and a clear scan. -/
theorem isExitPathClear_elim {rows cols : Nat} {g : Grid}
    {path : List Cell} {headPos : Cell} {headDir : Direction}
    (h : isExitPathClear rows cols g path headPos headDir = true) :
    ∃ δ, dirDelta headDir = some δ ∧
      exitScan rows cols g path δ (headPos.1 + δ.1, headPos.2 + δ.2)
        (rows + cols + 1) = true := by
  unfold isExitPathClear at h
  cases hd : dirDelta headDir with
  | none => rw [hd] at h; cases h
  | some δ => rw [hd] at h; exact ⟨δ, rfl, h⟩

/-- When the geometry check passes, the blocker scan returns the empty
set: the two walks visit the same lane, and the geometry check already
established that every lane cell is unoccupied. -/
theorem findBlockingBeams_of_clear {rows cols : Nat} {g : Grid}
    {path : List Cell} {headPos : Cell} {headDir : Direction}
    (h : isExitPathClear rows cols g path headPos headDir = true) :
    findBlockingBeams rows cols g path headPos headDir = [] := by
  obtain ⟨δ, hd, hscan⟩ := isExitPathClear_elim h
  unfold findBlockingBeams
  rw [hd]
  exact blockScan_of_clear rows cols g path δ _ _ [] hscan

namespace LvlGen

/-- Case analysis of `_try_to_place_beam` of `lvlGenerator.py`: a failing
attempt leaves the state untouched; a successful one commits a well-formed
candidate whose geometry check passed, with the scanned blocker list. -/
theorem tryPlace_spec (st : State) (o : AttemptO) :
    ((tryPlace st o).1 = false ∧ (tryPlace st o).2 = st) ∨
    ((tryPlace st o).1 = true ∧ ∃ path headPos headDir,
      CandOK st.rows st.cols st.grid st.minLen
        (max st.maxLen (st.minLen + 3)) (path, headPos, headDir) ∧
      isExitPathClear st.rows st.cols st.grid path headPos headDir = true ∧
      (tryPlace st o).2 =
        { placeBeam st st.next o.color path
            (findBlockingBeams st.rows st.cols st.grid path headPos headDir)
          with next := st.next + 1 }) := by
  unfold tryPlace
  dsimp only []
  split
  · exact Or.inl ⟨rfl, rfl⟩
  · split
    · exact Or.inl ⟨rfl, rfl⟩
    · rename_i path headPos headDir hcand
      split
      · rename_i hclear
        split
        · exact Or.inl ⟨rfl, rfl⟩
        · refine Or.inr ⟨rfl, path, headPos, headDir, ?_, hclear, rfl⟩
          by_cases h1 : (st.beams.length * 5 < st.numBeams * 2 ||
              st.beams.isEmpty) = true
          · rw [if_pos h1] at hcand
            exact (generateRandomWalkBeam_sound st.rows st.cols st.grid
              st.minLen st.maxLen o _ hcand).mono (le_max_left _ _)
          · rw [if_neg h1] at hcand
            by_cases h2 : st.beams.length * 5 < st.numBeams * 3
            · rw [if_pos h2] at hcand
              cases hseed : generateSeedBeam st.rows st.cols st.grid
                  st.minLen o with
              | some c0 =>
                rw [hseed] at hcand
                cases hcand
                exact (generateSeedBeam_sound st.rows st.cols st.grid
                  st.minLen o _ hseed).mono (le_max_right _ _)
              | none =>
                rw [hseed] at hcand
                exact (generateFillGapBeam_sound st.rows st.cols st.grid
                  st.minLen o _ hcand).mono (le_max_right _ _)
            · rw [if_neg h2] at hcand
              exact (generateFillGapBeam_sound st.rows st.cols st.grid
                st.minLen o _ hcand).mono (le_max_right _ _)
      · exact Or.inl ⟨rfl, rfl⟩

end LvlGen

namespace RefGen

/-- Case analysis of `_try_to_place_beam` of `referenceLVLgenerator.py`. -/
theorem tryPlace_spec_ref (st : State) (o : AttemptO) :
    ((tryPlace st o).1 = false ∧ (tryPlace st o).2 = st) ∨
    ((tryPlace st o).1 = true ∧ ∃ path headPos headDir,
      CandOK st.rows st.cols st.grid st.minLen
        (max st.maxLen (st.minLen + 3)) (path, headPos, headDir) ∧
      isExitPathClear st.rows st.cols st.grid path headPos headDir = true ∧
      (tryPlace st o).2 =
        { placeBeam st st.next o.color path
            (findBlockingBeams st.rows st.cols st.grid path headPos headDir)
          with next := st.next + 1 }) := by
  unfold tryPlace
  dsimp only []
  split
  · exact Or.inl ⟨rfl, rfl⟩
  · rename_i path headPos headDir hcand
    split
    · rename_i hclear
      split
      · exact Or.inl ⟨rfl, rfl⟩
      · exact Or.inr ⟨rfl, path, headPos, headDir,
          (generateRandomWalkBeam_sound st.rows st.cols st.grid
            st.minLen st.maxLen o _ hcand).mono (le_max_left _ _),
          hclear, rfl⟩
    · exact Or.inl ⟨rfl, rfl⟩

end RefGen

/-- Storing a path cell by cell (`for cell in path: self.grid[cell] = id`)
prepends the reversed path, uniformly tagged with the owner id. -/
theorem foldl_consGrid (i : Nat) :
    ∀ (path : List Cell) (g0 : Grid),
      path.foldl (fun g c => (c, i) :: g) g0 =
        (path.reverse.map (fun c => (c, i))) ++ g0 := by
  intro path
  induction path with
  | nil => intro g0; rfl
  | cons c cs ih =>
    intro g0
    show cs.foldl (fun g c => (c, i) :: g) ((c, i) :: g0) = _
    rw [ih ((c, i) :: g0)]
    simp [List.reverse_cons, List.map_append, List.append_assoc]

/-- A successful lookup is a grid binding. -/
theorem gridGet_some_mem {g : Grid} {c : Cell} {i : Nat}
    (h : gridGet g c = some i) : (c, i) ∈ g := by
  unfold gridGet at h
  cases hf : g.find? (fun p => p.1 = c) with
  | none => rw [hf] at h; cases h
  | some q =>
    rw [hf] at h
    cases h
    have hmem := List.mem_of_find?_eq_some hf
    have hpred := List.find?_some hf
    have hq : q.1 = c := by simpa using hpred
    rw [← hq]
    simpa using hmem

/-- Grid membership as membership of the key list. -/
theorem gridContains_iff_mem_keys {g : Grid} {c : Cell} :
    gridContains g c = true ↔ c ∈ g.map (fun p => p.1) := by
  unfold gridContains
  rw [List.any_eq_true]
  constructor
  · rintro ⟨p, hp, hpc⟩
    have : p.1 = c := by simpa using hpc
    rw [← this]
    exact List.mem_map_of_mem _ hp
  · intro hc
    rcases List.mem_map.mp hc with ⟨p, hp, hpc⟩
    exact ⟨p, hp, by simpa using hpc⟩

/-- Descending dependency maps have no directed cycle (set-valued form). -/
theorem no_cycle_of_desc {deps : List (Nat × List Nat)}
    (hdesc : ∀ p ∈ deps, ∀ b ∈ p.2, b < p.1) :
    ¬ ∃ a, Relation.TransGen (Edge deps) a a := by
  rintro ⟨a, h⟩
  have hlt : ∀ x y : Nat, Relation.TransGen (Edge deps) x y → y < x := by
    intro x y hxy
    induction hxy with
    | single h1 =>
      rcases h1 with ⟨s, hs, hb⟩
      exact hdesc _ hs _ hb
    | tail _ h2 ih =>
      rcases h2 with ⟨s, hs, hb⟩
      exact lt_trans (hdesc _ hs _ hb) ih
  exact lt_irrefl a (hlt a a h)

/-- Descending dependency maps have no directed cycle (single-target
form). -/
theorem no_cycle_of_desc0 {deps : List (Nat × Option Nat)}
    (hdesc : ∀ p ∈ deps, ∀ b, p.2 = some b → b < p.1) :
    ¬ ∃ a, Relation.TransGen (Edge0 deps) a a := by
  rintro ⟨a, h⟩
  have hlt : ∀ x y : Nat, Relation.TransGen (Edge0 deps) x y → y < x := by
    intro x y hxy
    induction hxy with
    | single h1 => exact hdesc _ h1 _ rfl
    | tail _ h2 ih => exact lt_trans (hdesc _ h2 _ rfl) ih
  exact lt_irrefl a (hlt a a h)

namespace Copy0

/-- A found target beam id is a value of the grid map. -/
theorem findTargetBeam_mem (rows cols : Nat) (g : Grid)
    (beams : List Beam) (δ : Int × Int) :
    ∀ (fuel : Nat) (p : Cell) (i : Nat),
      findTargetBeam rows cols g beams δ p fuel = some i →
      ∃ c, (c, i) ∈ g := by
  intro fuel
  induction fuel with
  | zero => intro p i h; cases h
  | succ n ih =>
    intro p i h
    unfold findTargetBeam at h
    split at h
    · split at h
      · rename_i j hg
        split at h
        · rename_i b hbg
          split at h
          · cases h
            exact ⟨p, gridGet_some_mem hg⟩
          · exact ih _ i h
        · exact ih _ i h
      · exact ih _ i h
    · cases h

/-- Case analysis of `_try_to_place_beam` of `part_000`. -/
theorem tryPlace0_spec (st : State0) (o : AttemptO) :
    ((tryPlace0 st o).1 = false ∧ (tryPlace0 st o).2 = st) ∨
    ((tryPlace0 st o).1 = true ∧ ∃ path headPos headDir δ,
      dirDelta headDir = some δ ∧
      (tryPlace0 st o).2 =
        { place0 st st.next o.color path
            (findTargetBeam st.rows st.cols st.grid st.beams δ headPos
              (st.rows + st.cols + 1))
          with next := st.next + 1 }) := by
  unfold tryPlace0
  dsimp only []
  split
  · exact Or.inl ⟨rfl, rfl⟩
  · rename_i path headPos headDir hcand
    split
    · exact Or.inl ⟨rfl, rfl⟩
    · rename_i δ hδ
      split
      · exact Or.inl ⟨rfl, rfl⟩
      · exact Or.inr ⟨rfl, path, headPos, headDir, δ, hδ, rfl⟩

/-- One attempt of the `part_000` generator preserves its invariant. -/
theorem inv0_tryPlace0 (st : State0) (o : AttemptO) (h : Inv0 st) :
    Inv0 (tryPlace0 st o).2 := by
  rcases tryPlace0_spec st o with ⟨_, heq⟩ | ⟨_, path, headPos, headDir, δ, hδ, heq⟩
  · rw [heq]; exact h
  · rw [heq]
    unfold place0
    dsimp only
    refine ⟨?_, ?_, ?_⟩
    · intro p hp
      dsimp only at hp
      rw [foldl_consGrid] at hp
      rcases List.mem_append.mp hp with hp1 | hp2
      · rcases List.mem_map.mp hp1 with ⟨c0, _, rfl⟩
        simp
      · have hv := h.gridVals p hp2
        dsimp only
        omega
    · intro p hp b hpb
      dsimp only at hp
      rcases List.mem_append.mp hp with hp1 | hp2
      · exact h.depsDesc p hp1 b hpb
      · rcases List.mem_singleton.mp hp2 with rfl
        dsimp only at hpb
        obtain ⟨c, hc⟩ := findTargetBeam_mem st.rows st.cols st.grid
          st.beams δ (st.rows + st.cols + 1) headPos b hpb
        exact h.gridVals (c, b) hc
    · intro p hp
      dsimp only at hp
      rcases List.mem_append.mp hp with hp1 | hp2
      · have hv := h.depsKeys p hp1
        dsimp only
        omega
      · rcases List.mem_singleton.mp hp2 with rfl
        simp

/-- The invariant holds along any attempt sequence of `part_000`. -/
theorem inv0_runAttempts0 (st : State0) (os : List AttemptO) (h : Inv0 st) :
    Inv0 (runAttempts0 st os) := by
  induction os generalizing st with
  | nil => exact h
  | cons o rest ih =>
    exact ih (tryPlace0 st o).2 (inv0_tryPlace0 st o h)

/-- The fresh `part_000` state satisfies the invariant. -/
theorem inv0_initState0 (rows cols numBeams minLen maxLen : Nat) :
    Inv0 (initState0 rows cols numBeams minLen maxLen) := by
  refine ⟨?_, ?_, ?_⟩ <;> intro p hp <;> cases hp

end Copy0

/-! ### Invariant preservation for the two main generators -/

/-- Committing a well-formed, geometry-accepted candidate preserves the
invariant (shared ending of both `_try_to_place_beam` variants). -/
theorem inv_commit (st : State) (color : String) (path : List Cell)
    (headPos : Cell) (headDir : Direction) (hInv : Inv st)
    (hok : CandOK st.rows st.cols st.grid st.minLen
      (max st.maxLen (st.minLen + 3)) (path, headPos, headDir))
    (hclear : isExitPathClear st.rows st.cols st.grid path headPos headDir
      = true) :
    Inv ({ placeBeam st st.next color path
        (findBlockingBeams st.rows st.cols st.grid path headPos headDir)
      with next := st.next + 1 }) := by
  obtain ⟨hnd, hinb, hfresh, hlo, hhi, h2, n, rest, hrev, hdir⟩ := hok
  obtain ⟨δ, hδ, hscan⟩ := isExitPathClear_elim hclear
  dsimp only at hnd hinb hfresh hlo hhi h2 hrev hdir
  rw [findBlockingBeams_of_clear hclear]
  unfold placeBeam
  dsimp only
  have hgrid' : (path.foldl (fun g c => (c, st.next) :: g) st.grid)
      = path.reverse.map (fun c => (c, st.next)) ++ st.grid :=
    foldl_consGrid st.next path st.grid
  have hflat' : ∀ b0 : Beam, ((st.beams ++ [b0]).flatMap (fun b => b.path))
      = st.beams.flatMap (fun b => b.path) ++ b0.path := by
    intro b0
    rw [List.flatMap_append]
    simp
  have hdisj : ∀ a ∈ st.beams.flatMap (fun b => b.path), a ∉ path := by
    intro a ha hap
    have h1 : a ∈ st.grid.map (fun p => p.1) :=
      (hInv.gridKeys.mem_iff).mpr ha
    have h2' := gridContains_iff_mem_keys.mpr h1
    rw [hfresh a hap] at h2'
    cases h2'
  refine ⟨?_, ?_, ?_, ?_, ?_, ?_, ?_, ?_, ?_, ?_, ?_, ?_⟩
  · dsimp only at hgrid' ⊢
    rw [hgrid', hflat' _]
    dsimp only
    have hmk : (path.reverse.map (fun c => (c, st.next)) ++ st.grid).map
        (fun p => p.1) = path.reverse ++ st.grid.map (fun p => p.1) := by
      rw [List.map_append, List.map_map]
      simp [Function.comp_def]
    rw [hmk]
    exact ((List.reverse_perm path).append hInv.gridKeys).trans
      List.perm_append_comm
  · intro p hp
    dsimp only at hp ⊢
    rw [hgrid'] at hp
    rcases List.mem_append.mp hp with hp1 | hp2
    · rcases List.mem_map.mp hp1 with ⟨c0, _, rfl⟩
      omega
    · have := hInv.gridVals p hp2
      omega
  · intro p hp
    dsimp only at hp ⊢
    rw [hgrid'] at hp
    rcases List.mem_append.mp hp with hp1 | hp2
    · rcases List.mem_map.mp hp1 with ⟨c0, hc0, rfl⟩
      refine ⟨{ id := st.next, color := color, path := path }, ?_, rfl, ?_⟩
      · exact List.mem_append.mpr (Or.inr (List.mem_singleton.mpr rfl))
      · exact List.mem_reverse.mp hc0
    · obtain ⟨b, hb, hbid, hbc⟩ := hInv.gridOwn p hp2
      exact ⟨b, List.mem_append.mpr (Or.inl hb), hbid, hbc⟩
  · dsimp only
    rw [hflat' _]
    rw [List.nodup_append]
    exact ⟨hInv.flatNodup, hnd, hdisj⟩
  · intro b hb q hq
    dsimp only at hb ⊢
    rcases List.mem_append.mp hb with hb1 | hb2
    · exact hInv.pathsInB b hb1 q hq
    · rcases List.mem_singleton.mp hb2 with rfl
      exact hinb q hq
  · intro b hb
    dsimp only at hb ⊢
    rcases List.mem_append.mp hb with hb1 | hb2
    · exact hInv.lenLo b hb1
    · rcases List.mem_singleton.mp hb2 with rfl
      exact hlo
  · intro b hb
    dsimp only at hb ⊢
    rcases List.mem_append.mp hb with hb1 | hb2
    · exact hInv.lenHi b hb1
    · rcases List.mem_singleton.mp hb2 with rfl
      exact hhi
  · intro b hb
    dsimp only at hb ⊢
    rcases List.mem_append.mp hb with hb1 | hb2
    · exact hInv.lenTwo b hb1
    · rcases List.mem_singleton.mp hb2 with rfl
      exact h2
  · intro b hb
    dsimp only at hb ⊢
    rcases List.mem_append.mp hb with hb1 | hb2
    · exact hInv.selfClear b hb1
    · rcases List.mem_singleton.mp hb2 with rfl
      unfold beamSelfHit
      dsimp only
      rw [hrev]
      dsimp only
      rw [← hdir, hδ]
      dsimp only
      apply List.any_eq_false.mpr
      intro c hc
      have hfree := exitScan_true_lane_free st.rows st.cols st.grid path δ
        (st.rows + st.cols + 1) _ hscan c hc
      simpa using hfree.2
  · intro p hp
    dsimp only at hp
    rcases List.mem_append.mp hp with hp1 | hp2
    · exact hInv.depsEmpty p hp1
    · rcases List.mem_singleton.mp hp2 with rfl
      rfl
  · intro p hp
    dsimp only at hp ⊢
    rcases List.mem_append.mp hp with hp1 | hp2
    · have := hInv.depsKeys p hp1
      omega
    · rcases List.mem_singleton.mp hp2 with rfl
      omega
  · intro b hb
    dsimp only at hb ⊢
    rcases List.mem_append.mp hb with hb1 | hb2
    · have := hInv.beamIds b hb1
      omega
    · rcases List.mem_singleton.mp hb2 with rfl
      dsimp only
      omega

namespace LvlGen

/-- One attempt of the `lvlGenerator.py` generator preserves the
invariant. -/
theorem inv_tryPlace (st : State) (o : AttemptO) (h : Inv st) :
    Inv (tryPlace st o).2 := by
  rcases tryPlace_spec st o with ⟨_, heq⟩ |
    ⟨_, path, headPos, headDir, hok, hclear, heq⟩
  · rw [heq]; exact h
  · rw [heq]
    exact inv_commit st o.color path headPos headDir h hok hclear

/-- The invariant holds along any attempt sequence. -/
theorem inv_runAttempts (st : State) (os : List AttemptO) (h : Inv st) :
    Inv (runAttempts st os) := by
  induction os generalizing st with
  | nil => exact h
  | cons o rest ih => exact ih (tryPlace st o).2 (inv_tryPlace st o h)

end LvlGen

namespace RefGen

/-- One attempt of the `referenceLVLgenerator.py` generator preserves the
invariant. -/
theorem inv_tryPlace_ref (st : State) (o : AttemptO) (h : Inv st) :
    Inv (tryPlace st o).2 := by
  rcases tryPlace_spec_ref st o with ⟨_, heq⟩ |
    ⟨_, path, headPos, headDir, hok, hclear, heq⟩
  · rw [heq]; exact h
  · rw [heq]
    exact inv_commit st o.color path headPos headDir h hok hclear

/-- The invariant holds along any attempt sequence. -/
theorem inv_runAttempts_ref (st : State) (os : List AttemptO) (h : Inv st) :
    Inv (runAttempts st os) := by
  induction os generalizing st with
  | nil => exact h
  | cons o rest ih => exact ih (tryPlace st o).2 (inv_tryPlace_ref st o h)

end RefGen

/-- A fresh generator state satisfies the invariant. -/
theorem inv_initState (rows cols numBeams minLen maxLen : Nat) :
    Inv (initState rows cols numBeams minLen maxLen) := by
  refine ⟨?_, ?_, ?_, ?_, ?_, ?_, ?_, ?_, ?_, ?_, ?_, ?_⟩ <;>
    first
    | exact List.Perm.refl _
    | exact List.nodup_nil
    | (intro p hp; cases hp)

/-! ### The retry loop -/

/-- Unfolding equation of `genLoop` at positive fuel. -/
theorem genLoop_succ {σ : Type} (step : σ → AttemptO → Bool × σ)
    (placed target : σ → Nat) (budget : Nat) (o : Nat → AttemptO)
    (st : σ) (k att fuel : Nat) :
    genLoop step placed target budget o st k att (fuel + 1) =
      if placed st < target st && att < budget then
        match step st (o k) with
        | (true, st') => genLoop step placed target budget o st' (k + 1) 0 fuel
        | (false, st') =>
          genLoop step placed target budget o st' (k + 1) (att + 1) fuel
      else (st, att) := rfl

/-- Any property each attempt preserves holds of the loop's final state. -/
theorem genLoop_inv {σ : Type} (step : σ → AttemptO → Bool × σ)
    (placed target : σ → Nat) (budget : Nat) (o : Nat → AttemptO)
    (P : σ → Prop) (hP : ∀ s a, P s → P (step s a).2) :
    ∀ (fuel : Nat) (st : σ) (k att : Nat), P st →
      P (genLoop step placed target budget o st k att fuel).1 := by
  intro fuel
  induction fuel with
  | zero => intro st k att h; exact h
  | succ n ih =>
    intro st k att h
    rw [genLoop_succ]
    by_cases hg : (placed st < target st && att < budget) = true
    · rw [if_pos hg]
      cases hstep : step st (o k) with
      | mk b s' =>
        have hPs' : P s' := by
          have := hP st (o k) h
          rw [hstep] at this
          exact this
        cases b
        · exact ih s' (k + 1) (att + 1) hPs'
        · exact ih s' (k + 1) 0 hPs'
    · rw [if_neg hg]
      exact h

/-- With enough fuel the retry loop halts with its guard false: either the
requested beam count is reached or the consecutive-failure counter equals
the budget. -/
theorem genLoop_exit {σ : Type} (step : σ → AttemptO → Bool × σ)
    (placed target : σ → Nat) (budget : Nat) (o : Nat → AttemptO)
    (hsucc : ∀ s a, (step s a).1 = true →
      placed (step s a).2 = placed s + 1 ∧ target (step s a).2 = target s)
    (hfail : ∀ s a, (step s a).1 = false → (step s a).2 = s) :
    ∀ (fuel : Nat) (st : σ) (k att : Nat),
      (target st - placed st) * (budget + 1) + (budget - att) < fuel →
      att ≤ budget → placed st ≤ target st →
      ∃ st' att',
        genLoop step placed target budget o st k att fuel = (st', att') ∧
        (placed st' = target st' ∨ att' = budget) := by
  intro fuel
  induction fuel with
  | zero => intro st k att hpot _ _; omega
  | succ n ih =>
    intro st k att hpot hatt hple
    rw [genLoop_succ]
    by_cases hg : (placed st < target st && att < budget) = true
    · rw [if_pos hg]
      obtain ⟨hg1, hg2⟩ := and_true_split hg
      have hlt1 : placed st < target st := by simpa using hg1
      have hlt2 : att < budget := by simpa using hg2
      cases hstep : step st (o k) with
      | mk b s' =>
        cases b
        · have hs' : s' = st := by
            have := hfail st (o k) (by rw [hstep])
            rw [hstep] at this
            simpa using this
          subst hs'
          refine ih s' (k + 1) (att + 1) ?_ (by omega) hple
          have hsub : budget - att = (budget - (att + 1)) + 1 := by omega
          omega
        · have hcount := hsucc st (o k) (by rw [hstep])
          rw [hstep] at hcount
          dsimp only at hcount
          obtain ⟨hp', ht'⟩ := hcount
          refine ih s' (k + 1) 0 ?_ (by omega) (by omega)
          rw [hp', ht']
          have h1 : target st - placed st
              = (target st - (placed st + 1)) + 1 := by omega
          rw [h1, Nat.add_mul, one_mul] at hpot
          omega
    · rw [if_neg hg]
      refine ⟨st, att, rfl, ?_⟩
      have : ¬ (placed st < target st ∧ att < budget) := by
        intro hcon
        exact hg (by simp [hcon.1, hcon.2])
      omega

namespace LvlGen

/-- A failing attempt leaves the generator state untouched. -/
theorem tryPlace_false_eq (st : State) (o : AttemptO)
    (h : (tryPlace st o).1 = false) : (tryPlace st o).2 = st := by
  rcases tryPlace_spec st o with ⟨_, heq⟩ | ⟨ht, _⟩
  · exact heq
  · rw [h] at ht; cases ht

/-- A successful attempt adds exactly one beam and keeps the target. -/
theorem tryPlace_true_counts (st : State) (o : AttemptO)
    (h : (tryPlace st o).1 = true) :
    (tryPlace st o).2.beams.length = st.beams.length + 1 ∧
    (tryPlace st o).2.numBeams = st.numBeams := by
  rcases tryPlace_spec st o with ⟨hf, _⟩ |
    ⟨_, path, headPos, headDir, _, _, heq⟩
  · rw [h] at hf; cases hf
  · rw [heq]
    unfold placeBeam
    dsimp only
    simp

end LvlGen

namespace RefGen

/-- A failing attempt leaves the generator state untouched. -/
theorem tryPlace_false_eq_ref (st : State) (o : AttemptO)
    (h : (tryPlace st o).1 = false) : (tryPlace st o).2 = st := by
  rcases tryPlace_spec_ref st o with ⟨_, heq⟩ | ⟨ht, _⟩
  · exact heq
  · rw [h] at ht; cases ht

/-- A successful attempt adds exactly one beam and keeps the target. -/
theorem tryPlace_true_counts_ref (st : State) (o : AttemptO)
    (h : (tryPlace st o).1 = true) :
    (tryPlace st o).2.beams.length = st.beams.length + 1 ∧
    (tryPlace st o).2.numBeams = st.numBeams := by
  rcases tryPlace_spec_ref st o with ⟨hf, _⟩ |
    ⟨_, path, headPos, headDir, _, _, heq⟩
  · rw [h] at hf; cases hf
  · rw [heq]
    unfold placeBeam
    dsimp only
    simp

end RefGen

/-! ### Serialization lemmas -/

/-- Reading a list back by positions reproduces it. -/
theorem range_map_getD {α : Type} (l : List α) (d : α) :
    (List.range l.length).map (fun i => l.getD i d) = l := by
  induction l with
  | nil => rfl
  | cons a t ih =>
    rw [List.length_cons, List.range_succ_eq_map, List.map_cons, List.map_map]
    have htail : List.map ((fun i => (a :: t).getD i d) ∘ Nat.succ)
        (List.range t.length) = t := by
      refine Eq.trans ?_ ih
      apply List.map_congr_left
      intro i _
      rfl
    rw [htail]
    rfl

/-- The coordinate sweep has `rows * cols` cells. -/
theorem productCells_length (rows cols : Nat) :
    (productCells rows cols).length = rows * cols := by
  unfold productCells
  rw [List.length_flatMap]
  have h : List.map (List.length ∘ fun r =>
      (List.range cols).map (fun c => ((Int.ofNat r, Int.ofNat c) : Cell)))
      (List.range rows) = List.replicate rows cols := by
    apply List.eq_replicate_iff.mpr
    constructor
    · simp
    · intro b hb
      rcases List.mem_map.mp hb with ⟨r, _, rfl⟩
      simp [Function.comp]
  rw [h, List.sum_replicate]
  simp

/-- The coordinate sweep visits each coordinate once. -/
theorem productCells_nodup (rows cols : Nat) :
    (productCells rows cols).Nodup := by
  unfold productCells
  apply List.nodup_flatMap.mpr
  constructor
  · intro r _
    refine List.Nodup.map ?_ (List.nodup_range _)
    intro a b hab
    have h2 : Int.ofNat a = Int.ofNat b := congrArg Prod.snd hab
    exact Int.ofNat_inj.mp h2
  · refine (List.pairwise_lt_range rows).imp ?_
    intro a b hab
    intro x hx1 hx2
    rcases List.mem_map.mp hx1 with ⟨c1, _, rfl⟩
    rcases List.mem_map.mp hx2 with ⟨c2, _, heq⟩
    have := congrArg Prod.fst heq
    simp only at this
    have : b = a := Int.ofNat_inj.mp this
    omega

/-- The entries emitted for a beam cover exactly its path cells, in
order. -/
theorem beamCells_coords (b : Beam) :
    (beamCells b).map (fun e => ((e.row, e.col) : Cell)) = b.path := by
  unfold beamCells
  rw [List.map_map]
  have h : ∀ i ∈ List.range b.path.length,
      ((fun e : CellEntry => ((e.row, e.col) : Cell)) ∘ fun i =>
        ({ row := (b.path.getD i (0, 0)).1, col := (b.path.getD i (0, 0)).2,
           ctype := if i = b.path.length - 1 then "end"
                    else if i = 0 then "start" else "path",
           dir := if i + 1 < b.path.length
                  then getDirection (b.path.getD i (0, 0))
                    (b.path.getD (i + 1) (0, 0))
                  else Direction.none,
           color := b.color } : CellEntry)) i
        = b.path.getD i (0, 0) := by
    intro i _
    exact Prod.mk.eta
  rw [List.map_congr_left h]
  exact range_map_getD _ _

/-- The coordinates of the `empty` entries are the unoccupied coordinates
of the sweep. -/
theorem emptyCells_coords (rows cols : Nat) (g : Grid) :
    (emptyCells rows cols g).map (fun e => ((e.row, e.col) : Cell))
      = (productCells rows cols).filter (fun c => !gridContains g c) := by
  unfold emptyCells
  induction productCells rows cols with
  | nil => rfl
  | cons c t ih =>
    rw [List.filterMap_cons, List.filter_cons]
    by_cases hg : gridContains g c = true
    · rw [if_pos hg]
      have hc : (!gridContains g c) = false := by rw [hg]; rfl
      rw [hc]
      simpa using ih
    · have hg' : gridContains g c = false := by simpa using hg
      rw [if_neg hg]
      have hc : (!gridContains g c) = true := by rw [hg']; rfl
      rw [hc]
      simp only [List.map_cons]
      rw [ih]
      simp [Prod.mk.eta]

/-- Membership in the emitted cell list, through the sort. -/
theorem mem_toJsonCells {rows cols : Nat} {beams : List Beam} {g : Grid}
    {e : CellEntry} :
    e ∈ toJsonCells rows cols beams g ↔
      (∃ b ∈ beams, e ∈ beamCells b) ∨ e ∈ emptyCells rows cols g := by
  unfold toJsonCells
  rw [(List.mergeSort_perm _ _).mem_iff, List.mem_append, List.mem_flatMap]

/-- Elimination for membership in a beam's entry block. -/
theorem mem_beamCells {b : Beam} {e : CellEntry} (h : e ∈ beamCells b) :
    ∃ i, i < b.path.length ∧
      e.row = (b.path.getD i (0, 0)).1 ∧ e.col = (b.path.getD i (0, 0)).2 ∧
      e.color = b.color ∧ e.ctype ≠ "empty" ∧
      e.dir = (if i + 1 < b.path.length
               then getDirection (b.path.getD i (0, 0))
                 (b.path.getD (i + 1) (0, 0))
               else Direction.none) := by
  unfold beamCells at h
  rcases List.mem_map.mp h with ⟨i, hi, rfl⟩
  rw [List.mem_range] at hi
  refine ⟨i, hi, rfl, rfl, rfl, ?_, rfl⟩
  dsimp only
  by_cases h1 : i = b.path.length - 1
  · rw [if_pos h1]; decide
  · rw [if_neg h1]
    by_cases h2 : i = 0
    · rw [if_pos h2]; decide
    · rw [if_neg h2]; decide

/-- Elimination for membership in the empty sweep. -/
theorem mem_emptyCells {rows cols : Nat} {g : Grid} {e : CellEntry}
    (h : e ∈ emptyCells rows cols g) :
    inBounds rows cols (e.row, e.col) = true ∧
    gridContains g (e.row, e.col) = false ∧
    e.ctype = "empty" ∧ e.dir = Direction.none := by
  unfold emptyCells at h
  rcases List.mem_filterMap.mp h with ⟨c, hc, hfc⟩
  by_cases hg : gridContains g c = true
  · rw [if_pos hg] at hfc; cases hfc
  · have hg' : gridContains g c = false := by simpa using hg
    rw [if_neg hg] at hfc
    cases hfc
    dsimp only
    rw [Prod.mk.eta]
    exact ⟨mem_productCells.mp hc, hg', rfl, rfl⟩

/-- On an invariant state, the serialized coordinates are a permutation of
the full coordinate sweep. -/
theorem serial_coords_perm (st : State) (hInv : Inv st) :
    ((toJsonCells st.rows st.cols st.beams st.grid).map
      (fun e => ((e.row, e.col) : Cell))).Perm
      (productCells st.rows st.cols) := by
  unfold toJsonCells
  refine ((List.mergeSort_perm _ _).map _).trans ?_
  rw [List.map_append, List.map_flatMap]
  have hfg : (fun b => (beamCells b).map
      (fun e => ((e.row, e.col) : Cell))) = fun b : Beam => b.path :=
    funext beamCells_coords
  rw [hfg, emptyCells_coords]
  have hmemiff : ∀ c : Cell,
      c ∈ st.beams.flatMap (fun b => b.path) ↔
      c ∈ (productCells st.rows st.cols).filter
        (fun c => gridContains st.grid c) := by
    intro c
    constructor
    · intro hc
      refine List.mem_filter.mpr ⟨?_, ?_⟩
      · rcases List.mem_flatMap.mp hc with ⟨b, hb, hcb⟩
        exact mem_productCells.mpr (hInv.pathsInB b hb c hcb)
      · exact gridContains_iff_mem_keys.mpr (hInv.gridKeys.mem_iff.mpr hc)
    · intro hc
      have h2 := (List.mem_filter.mp hc).2
      exact hInv.gridKeys.mem_iff.mp (gridContains_iff_mem_keys.mp h2)
  have hperm1 : (st.beams.flatMap (fun b => b.path)).Perm
      ((productCells st.rows st.cols).filter
        (fun c => gridContains st.grid c)) :=
    (List.perm_ext_iff_of_nodup hInv.flatNodup
      ((productCells_nodup _ _).filter _)).mpr hmemiff
  exact (hperm1.append (List.Perm.refl _)).trans
    (List.filter_append_perm _ _)

/-- On an invariant state, the serialized cell list has exactly
`rows * cols` entries. -/
theorem serial_length (st : State) (hInv : Inv st) :
    (toJsonCells st.rows st.cols st.beams st.grid).length
      = st.rows * st.cols := by
  have h := (serial_coords_perm st hInv).length_eq
  rw [List.length_map] at h
  rw [h, productCells_length]

/-- On an invariant state, `empty` entries sit on unoccupied cells and
non-`empty` entries carry their owning beam's data. -/
theorem serial_types (st : State) (hInv : Inv st) :
    ∀ e ∈ toJsonCells st.rows st.cols st.beams st.grid,
      (e.ctype = "empty" →
        gridContains st.grid (e.row, e.col) = false) ∧
      (e.ctype ≠ "empty" →
        ∃ b ∈ st.beams, ((e.row, e.col) : Cell) ∈ b.path ∧
          e.color = b.color) := by
  intro e he
  rcases mem_toJsonCells.mp he with ⟨b, hb, heb⟩ | hemp
  · obtain ⟨i, hi, hrow, hcol, hcolor, hct, _⟩ := mem_beamCells heb
    constructor
    · intro hct'; exact absurd hct' hct
    · intro _
      refine ⟨b, hb, ?_, hcolor⟩
      have hcc : ((e.row, e.col) : Cell) = b.path.getD i (0, 0) := by
        rw [hrow, hcol, Prod.mk.eta]
      rw [hcc, List.getD_eq_getElem _ _ hi]
      exact List.getElem_mem hi
  · obtain ⟨_, hfree, hct, _⟩ := mem_emptyCells hemp
    exact ⟨fun _ => hfree, fun hct' => absurd hct hct'⟩

/-- On an invariant state, the unique entry on a beam's cell number `i`
carries the direction toward cell `i + 1`, the head cell carrying
`"none"`. -/
theorem serial_dir (st : State) (hInv : Inv st) :
    ∀ e ∈ toJsonCells st.rows st.cols st.beams st.grid,
      ∀ b ∈ st.beams, ∀ i, ∀ hi : i < b.path.length,
        ((e.row, e.col) : Cell) = b.path.getD i (0, 0) →
        e.dir = (if i + 1 < b.path.length
                 then getDirection (b.path.getD i (0, 0))
                   (b.path.getD (i + 1) (0, 0))
                 else Direction.none) := by
  intro e he b hb i hi hcoord
  have hmemgrid : gridContains st.grid (b.path.getD i (0, 0)) = true := by
    apply gridContains_iff_mem_keys.mpr
    apply hInv.gridKeys.mem_iff.mpr
    apply List.mem_flatMap.mpr
    refine ⟨b, hb, ?_⟩
    rw [List.getD_eq_getElem _ _ hi]
    exact List.getElem_mem hi
  rcases mem_toJsonCells.mp he with ⟨b', hb', heb⟩ | hemp
  · obtain ⟨i', hi', hrow, hcol, _, _, hdir⟩ := mem_beamCells heb
    have hcell : b'.path.getD i' (0, 0) = b.path.getD i (0, 0) := by
      have h1 : ((e.row, e.col) : Cell) = b'.path.getD i' (0, 0) := by
        rw [hrow, hcol, Prod.mk.eta]
      rw [← h1, hcoord]
    have hbb : b' = b := by
      by_contra hne
      have hpair : List.Pairwise (List.Disjoint on fun b => b.path)
          st.beams := (List.nodup_flatMap.mp hInv.flatNodup).2
      have hsym : Symmetric (List.Disjoint on fun b : Beam => b.path) := by
        intro x y hxy
        exact hxy.symm
      have hdisj := hpair.forall hsym hb' hb hne
      have hmem1 : b.path.getD i (0, 0) ∈ b'.path := by
        rw [← hcell, List.getD_eq_getElem _ _ hi']
        exact List.getElem_mem hi'
      have hmem2 : b.path.getD i (0, 0) ∈ b.path := by
        rw [List.getD_eq_getElem _ _ hi]
        exact List.getElem_mem hi
      exact hdisj hmem1 hmem2
    subst hbb
    have hnd : b'.path.Nodup :=
      (List.nodup_flatMap.mp hInv.flatNodup).1 b' hb'
    have hii : i' = i := by
      have h1 : b'.path[i'] = b'.path[i] := by
        have e1 : b'.path.getD i' (0, 0) = b'.path[i'] :=
          List.getD_eq_getElem _ _ hi'
        have e2 : b'.path.getD i (0, 0) = b'.path[i] :=
          List.getD_eq_getElem _ _ hi
        rw [← e1, ← e2]
        exact hcell
      exact (hnd.getElem_inj_iff).mp h1
    subst hii
    exact hdir
  · obtain ⟨_, hfree, _, _⟩ := mem_emptyCells hemp
    rw [hcoord, hmemgrid] at hfree
    cases hfree

/-! ### Configuration fields are constant -/

namespace LvlGen

/-- One attempt never changes the level configuration. -/
theorem tryPlace_params (st : State) (o : AttemptO) :
    (tryPlace st o).2.rows = st.rows ∧ (tryPlace st o).2.cols = st.cols ∧
    (tryPlace st o).2.numBeams = st.numBeams ∧
    (tryPlace st o).2.minLen = st.minLen ∧
    (tryPlace st o).2.maxLen = st.maxLen := by
  rcases tryPlace_spec st o with ⟨_, heq⟩ |
    ⟨_, path, headPos, headDir, _, _, heq⟩
  · rw [heq]
    exact ⟨rfl, rfl, rfl, rfl, rfl⟩
  · rw [heq]
    unfold placeBeam
    dsimp only
    exact ⟨rfl, rfl, rfl, rfl, rfl⟩

/-- Attempt sequences never change the level configuration. -/
theorem runAttempts_params (st : State) (os : List AttemptO) :
    (runAttempts st os).rows = st.rows ∧
    (runAttempts st os).cols = st.cols ∧
    (runAttempts st os).numBeams = st.numBeams ∧
    (runAttempts st os).minLen = st.minLen ∧
    (runAttempts st os).maxLen = st.maxLen := by
  induction os generalizing st with
  | nil => exact ⟨rfl, rfl, rfl, rfl, rfl⟩
  | cons o rest ih =>
    obtain ⟨h1, h2, h3, h4, h5⟩ := ih (tryPlace st o).2
    obtain ⟨g1, g2, g3, g4, g5⟩ := tryPlace_params st o
    exact ⟨h1.trans g1, h2.trans g2, h3.trans g3, h4.trans g4, h5.trans g5⟩

end LvlGen

namespace RefGen

/-- One attempt never changes the level configuration. -/
theorem tryPlace_params_ref (st : State) (o : AttemptO) :
    (tryPlace st o).2.rows = st.rows ∧ (tryPlace st o).2.cols = st.cols ∧
    (tryPlace st o).2.numBeams = st.numBeams ∧
    (tryPlace st o).2.minLen = st.minLen ∧
    (tryPlace st o).2.maxLen = st.maxLen := by
  rcases tryPlace_spec_ref st o with ⟨_, heq⟩ |
    ⟨_, path, headPos, headDir, _, _, heq⟩
  · rw [heq]
    exact ⟨rfl, rfl, rfl, rfl, rfl⟩
  · rw [heq]
    unfold placeBeam
    dsimp only
    exact ⟨rfl, rfl, rfl, rfl, rfl⟩

/-- Attempt sequences never change the level configuration. -/
theorem runAttempts_params_ref (st : State) (os : List AttemptO) :
    (runAttempts st os).rows = st.rows ∧
    (runAttempts st os).cols = st.cols ∧
    (runAttempts st os).numBeams = st.numBeams ∧
    (runAttempts st os).minLen = st.minLen ∧
    (runAttempts st os).maxLen = st.maxLen := by
  induction os generalizing st with
  | nil => exact ⟨rfl, rfl, rfl, rfl, rfl⟩
  | cons o rest ih =>
    obtain ⟨h1, h2, h3, h4, h5⟩ := ih (tryPlace st o).2
    obtain ⟨g1, g2, g3, g4, g5⟩ := tryPlace_params_ref st o
    exact ⟨h1.trans g1, h2.trans g2, h3.trans g3, h4.trans g4, h5.trans g5⟩

end RefGen

/-! ### The crash-aware functions agree with the plain ones away from the
crash conditions -/

/-- Unfolding of `walkEntriesGoX` on an exhausted entry list. -/
theorem walkEntriesGoX_nil (rows cols : Nat) (g : Grid) (minLen maxLen : Nat)
    (tlenO : Nat → Nat) (stepO : Nat → Nat → Nat) (j : Nat) :
    walkEntriesGoX rows cols g minLen maxLen tlenO stepO [] j =
      some Option.none := rfl

/-- Unfolding of `walkEntriesGoX` on a nonempty entry list. -/
theorem walkEntriesGoX_cons (rows cols : Nat) (g : Grid)
    (minLen maxLen : Nat) (tlenO : Nat → Nat) (stepO : Nat → Nat → Nat)
    (e : Cell × Direction) (rest : List (Cell × Direction)) (j : Nat) :
    walkEntriesGoX rows cols g minLen maxLen tlenO stepO (e :: rest) j =
      if gridContains g e.1 then
        walkEntriesGoX rows cols g minLen maxLen tlenO stepO rest (j + 1)
      else
        match randint minLen maxLen (tlenO j) with
        | Option.none => Option.none
        | some tl =>
          match finishPath minLen
              (growSteps rows cols g (stepO j) (tl - 1) 0 [e.1] e.1) with
          | FinishRes.found c => some (some c)
          | FinishRes.crash => Option.none
          | FinishRes.tooShort =>
            walkEntriesGoX rows cols g minLen maxLen tlenO stepO rest (j + 1)
      := rfl

/-- Unfolding of `triesGoX` with no tries left. -/
theorem triesGoX_zero (rows cols : Nat) (g : Grid) (minLen : Nat)
    (starts : List Cell) (pickO tlenO : Nat → Nat)
    (stepO : Nat → Nat → Nat) (k : Nat) :
    triesGoX rows cols g minLen starts pickO tlenO stepO 0 k =
      some Option.none := rfl

/-- Unfolding of `triesGoX` with tries remaining. -/
theorem triesGoX_succ (rows cols : Nat) (g : Grid) (minLen : Nat)
    (starts : List Cell) (pickO tlenO : Nat → Nat)
    (stepO : Nat → Nat → Nat) (t k : Nat) :
    triesGoX rows cols g minLen starts pickO tlenO stepO (t + 1) k =
      match randint minLen (minLen + 3) (tlenO k) with
      | Option.none => Option.none
      | some tl =>
        match finishPath minLen
            (growSteps rows cols g (stepO k) (tl - 1) 0
              [starts.getD (pickO k % starts.length) (0, 0)]
              (starts.getD (pickO k % starts.length) (0, 0))) with
        | FinishRes.found c => some (some c)
        | FinishRes.crash => Option.none
        | FinishRes.tooShort =>
          triesGoX rows cols g minLen starts pickO tlenO stepO t (k + 1)
      := rfl

/-- With `2 ≤ min_len` no accepted path can have fewer than two cells, so
`path[-2]` cannot raise. -/
theorem finishPath_not_crash (minLen : Nat) (path : List Cell)
    (h2 : 2 ≤ minLen) : finishPath minLen path ≠ FinishRes.crash := by
  intro hcr
  unfold finishPath at hcr
  by_cases hle : minLen ≤ path.length
  · rw [if_pos hle] at hcr
    cases hrev : path.reverse with
    | nil =>
      have hlen := congrArg List.length hrev
      rw [List.length_reverse] at hlen
      simp only [List.length_nil] at hlen
      omega
    | cons a t =>
      cases t with
      | nil =>
        have hlen := congrArg List.length hrev
        rw [List.length_reverse] at hlen
        simp only [List.length_cons, List.length_nil] at hlen
        omega
      | cons b t2 =>
        rw [hrev] at hcr
        simp at hcr
  · rw [if_neg hle] at hcr
    simp at hcr

/-- Away from the crash conditions (`2 ≤ min_len ≤ max_len`) the
crash-aware entry walk returns exactly the plain one's result. -/
theorem walkEntriesGoX_eq (rows cols : Nat) (g : Grid) (minLen maxLen : Nat)
    (tlenO : Nat → Nat) (stepO : Nat → Nat → Nat) (h2 : 2 ≤ minLen)
    (hml : minLen ≤ maxLen) :
    ∀ (es : List (Cell × Direction)) (j : Nat),
      walkEntriesGoX rows cols g minLen maxLen tlenO stepO es j
        = some (walkEntriesGo rows cols g minLen maxLen tlenO stepO es j) := by
  intro es
  induction es with
  | nil => intro j; rfl
  | cons e rest ih =>
    intro j
    rw [walkEntriesGoX_cons, walkEntriesGo_cons]
    by_cases hg : gridContains g e.1 = true
    · rw [if_pos hg, if_pos hg]
      exact ih (j + 1)
    · rw [if_neg hg, if_neg hg]
      have hr : randint minLen maxLen (tlenO j)
          = some (minLen + tlenO j % (maxLen + 1 - minLen)) := by
        unfold randint
        rw [if_pos hml]
      rw [hr]
      dsimp only []
      split
      · rfl
      · rename_i hfin
        exact absurd hfin (finishPath_not_crash minLen _ h2)
      · exact ih (j + 1)

/-- Away from the crash conditions the crash-aware edge walk agrees with
the plain one. -/
theorem generateRandomWalkBeamX_eq (rows cols : Nat) (g : Grid)
    (minLen maxLen : Nat) (o : AttemptO) (h2 : 2 ≤ minLen)
    (hml : minLen ≤ maxLen) :
    generateRandomWalkBeamX rows cols g minLen maxLen o
      = some (generateRandomWalkBeam rows cols g minLen maxLen o) := by
  unfold generateRandomWalkBeamX generateRandomWalkBeam
  exact walkEntriesGoX_eq rows cols g minLen maxLen o.wTlen o.wStep h2 hml _ 0

/-- Unfolding of `walkEntriesGoXT` on an exhausted entry list. -/
theorem walkEntriesGoXT_nil (rows cols : Nat) (g : Grid)
    (minLen maxLen : Nat) (tlenO : Nat → Nat) (stepO : Nat → Nat → Nat)
    (j : Nat) :
    walkEntriesGoXT rows cols g minLen maxLen tlenO stepO [] j =
      some Option.none := rfl

/-- Unfolding of `walkEntriesGoXT` on a nonempty entry list. -/
theorem walkEntriesGoXT_cons (rows cols : Nat) (g : Grid)
    (minLen maxLen : Nat) (tlenO : Nat → Nat) (stepO : Nat → Nat → Nat)
    (e : Cell × Direction) (rest : List (Cell × Direction)) (j : Nat) :
    walkEntriesGoXT rows cols g minLen maxLen tlenO stepO (e :: rest) j =
      if gridContains g e.1 then
        walkEntriesGoXT rows cols g minLen maxLen tlenO stepO rest (j + 1)
      else
        match finishPath minLen
            (growSteps rows cols g (stepO j)
              (triangularInt minLen maxLen (tlenO j) - 1) 0 [e.1] e.1) with
        | FinishRes.found c => some (some c)
        | FinishRes.crash => Option.none
        | FinishRes.tooShort =>
          walkEntriesGoXT rows cols g minLen maxLen tlenO stepO rest (j + 1)
      := rfl

/-- Away from the crash conditions (`2 ≤ min_len ≤ max_len`, where the
`triangular` draw spans the same integers as `randint`) the
triangular-drawing crash-aware entry walk returns exactly the plain
one's result. -/
theorem walkEntriesGoXT_eq (rows cols : Nat) (g : Grid)
    (minLen maxLen : Nat) (tlenO : Nat → Nat) (stepO : Nat → Nat → Nat)
    (h2 : 2 ≤ minLen) (hml : minLen ≤ maxLen) :
    ∀ (es : List (Cell × Direction)) (j : Nat),
      walkEntriesGoXT rows cols g minLen maxLen tlenO stepO es j
        = some (walkEntriesGo rows cols g minLen maxLen tlenO stepO es j) := by
  intro es
  induction es with
  | nil => intro j; rfl
  | cons e rest ih =>
    intro j
    rw [walkEntriesGoXT_cons, walkEntriesGo_cons]
    by_cases hg : gridContains g e.1 = true
    · rw [if_pos hg, if_pos hg]
      exact ih (j + 1)
    · rw [if_neg hg, if_neg hg]
      have hr : randint minLen maxLen (tlenO j)
          = some (minLen + tlenO j % (maxLen + 1 - minLen)) := by
        unfold randint
        rw [if_pos hml]
      have ht : triangularInt minLen maxLen (tlenO j)
          = minLen + tlenO j % (maxLen + 1 - minLen) := by
        unfold triangularInt
        rw [if_pos hml]
      rw [hr, ht]
      dsimp only []
      split
      · rfl
      · rename_i hfin
        exact absurd hfin (finishPath_not_crash minLen _ h2)
      · exact ih (j + 1)

/-- Away from the crash conditions the crash-aware edge walk of
`lvlGenerator.py` agrees with the plain one. -/
theorem generateRandomWalkBeamXT_eq (rows cols : Nat) (g : Grid)
    (minLen maxLen : Nat) (o : AttemptO) (h2 : 2 ≤ minLen)
    (hml : minLen ≤ maxLen) :
    generateRandomWalkBeamXT rows cols g minLen maxLen o
      = some (generateRandomWalkBeam rows cols g minLen maxLen o) := by
  unfold generateRandomWalkBeamXT generateRandomWalkBeam
  exact walkEntriesGoXT_eq rows cols g minLen maxLen o.wTlen o.wStep h2 hml
    _ 0

/-- With `2 ≤ min_len` the crash-aware try loop agrees with the plain
one (its `randint(min_len, min_len + 3)` can never raise). -/
theorem triesGoX_eq (rows cols : Nat) (g : Grid) (minLen : Nat)
    (starts : List Cell) (pickO tlenO : Nat → Nat) (stepO : Nat → Nat → Nat)
    (h2 : 2 ≤ minLen) :
    ∀ (t k : Nat),
      triesGoX rows cols g minLen starts pickO tlenO stepO t k
        = some (triesGo rows cols g minLen starts pickO tlenO stepO t k) := by
  intro t
  induction t with
  | zero => intro k; rfl
  | succ n ih =>
    intro k
    rw [triesGoX_succ, triesGo_succ]
    have hr : randint minLen (minLen + 3) (tlenO k)
        = some (minLen + tlenO k % (minLen + 3 + 1 - minLen)) := by
      unfold randint
      rw [if_pos (by omega)]
    rw [hr]
    dsimp only []
    split
    · rfl
    · rename_i hfin
      exact absurd hfin (finishPath_not_crash minLen _ h2)
    · exact ih (k + 1)

/-- With `2 ≤ min_len` the crash-aware seed strategy agrees with the
plain one. -/
theorem generateSeedBeamX_eq (rows cols : Nat) (g : Grid) (minLen : Nat)
    (o : AttemptO) (h2 : 2 ≤ minLen) :
    generateSeedBeamX rows cols g minLen o
      = some (generateSeedBeam rows cols g minLen o) := by
  unfold generateSeedBeamX generateSeedBeam
  dsimp only []
  by_cases hemp : (isolatedCells rows cols g).isEmpty = true
  · rw [if_pos hemp, if_pos hemp]
  · rw [if_neg hemp, if_neg hemp]
    exact triesGoX_eq rows cols g minLen _ _ _ _ h2 20 0

/-- With `2 ≤ min_len` the crash-aware gap-fill strategy agrees with the
plain one. -/
theorem generateFillGapBeamX_eq (rows cols : Nat) (g : Grid) (minLen : Nat)
    (o : AttemptO) (h2 : 2 ≤ minLen) :
    generateFillGapBeamX rows cols g minLen o
      = some (generateFillGapBeam rows cols g minLen o) := by
  unfold generateFillGapBeamX generateFillGapBeam
  dsimp only []
  by_cases hemp : (gapStarts rows cols g).isEmpty = true
  · rw [if_pos hemp, if_pos hemp]
  · rw [if_neg hemp, if_neg hemp]
    exact triesGoX_eq rows cols g minLen _ _ _ _ h2 20 0

namespace LvlGen

/-- With `2 ≤ min_len ≤ max_len` no attempt of `lvlGenerator.py` can
raise, and the crash-aware attempt returns the plain one's result. -/
theorem tryPlaceX_eq (st : State) (o : AttemptO) (h2 : 2 ≤ st.minLen)
    (hml : st.minLen ≤ st.maxLen) :
    tryPlaceX st o = some (tryPlace st o) := by
  unfold tryPlaceX tryPlace
  dsimp only []
  cases hf : farthestEmptyCell st.rows st.cols st.grid with
  | none => rfl
  | some t =>
    by_cases hph1 : (st.beams.length * 5 < st.numBeams * 2
        || st.beams.isEmpty) = true
    · rw [if_pos hph1, if_pos hph1, generateRandomWalkBeamXT_eq st.rows
        st.cols st.grid st.minLen st.maxLen o h2 hml]
      cases hw : generateRandomWalkBeam st.rows st.cols st.grid st.minLen
          st.maxLen o with
      | none => rfl
      | some c =>
        obtain ⟨path, headPos, headDir⟩ := c
        dsimp only []
        by_cases hclear : isExitPathClear st.rows st.cols st.grid path
            headPos headDir = true
        · rw [if_pos hclear, if_pos hclear]
          by_cases hcyc : ((findBlockingBeams st.rows st.cols st.grid path
              headPos headDir).any (fun b =>
                checkForCycle st.deps st.next b (st.deps.length + 1))) = true
          · rw [if_pos hcyc, if_pos hcyc]
          · rw [if_neg hcyc, if_neg hcyc]
        · rw [if_neg hclear, if_neg hclear]
    · rw [if_neg hph1, if_neg hph1]
      by_cases hph2 : st.beams.length * 5 < st.numBeams * 3
      · rw [if_pos hph2, if_pos hph2, generateSeedBeamX_eq st.rows st.cols
          st.grid st.minLen o h2]
        cases hs : generateSeedBeam st.rows st.cols st.grid st.minLen o with
        | some c =>
          obtain ⟨path, headPos, headDir⟩ := c
          dsimp only []
          by_cases hclear : isExitPathClear st.rows st.cols st.grid path
              headPos headDir = true
          · rw [if_pos hclear, if_pos hclear]
            by_cases hcyc : ((findBlockingBeams st.rows st.cols st.grid path
                headPos headDir).any (fun b =>
                  checkForCycle st.deps st.next b (st.deps.length + 1)))
                = true
            · rw [if_pos hcyc, if_pos hcyc]
            · rw [if_neg hcyc, if_neg hcyc]
          · rw [if_neg hclear, if_neg hclear]
        | none =>
          dsimp only []
          rw [generateFillGapBeamX_eq st.rows st.cols st.grid st.minLen o h2]
          cases hgp : generateFillGapBeam st.rows st.cols st.grid st.minLen o
              with
          | none => rfl
          | some c =>
            obtain ⟨path, headPos, headDir⟩ := c
            dsimp only []
            by_cases hclear : isExitPathClear st.rows st.cols st.grid path
                headPos headDir = true
            · rw [if_pos hclear, if_pos hclear]
              by_cases hcyc : ((findBlockingBeams st.rows st.cols st.grid
                  path headPos headDir).any (fun b =>
                    checkForCycle st.deps st.next b (st.deps.length + 1)))
                  = true
              · rw [if_pos hcyc, if_pos hcyc]
              · rw [if_neg hcyc, if_neg hcyc]
            · rw [if_neg hclear, if_neg hclear]
      · rw [if_neg hph2, if_neg hph2, generateFillGapBeamX_eq st.rows
          st.cols st.grid st.minLen o h2]
        cases hgp : generateFillGapBeam st.rows st.cols st.grid st.minLen o
            with
        | none => rfl
        | some c =>
          obtain ⟨path, headPos, headDir⟩ := c
          dsimp only []
          by_cases hclear : isExitPathClear st.rows st.cols st.grid path
              headPos headDir = true
          · rw [if_pos hclear, if_pos hclear]
            by_cases hcyc : ((findBlockingBeams st.rows st.cols st.grid path
                headPos headDir).any (fun b =>
                  checkForCycle st.deps st.next b (st.deps.length + 1)))
                = true
            · rw [if_pos hcyc, if_pos hcyc]
            · rw [if_neg hcyc, if_neg hcyc]
          · rw [if_neg hclear, if_neg hclear]

end LvlGen

namespace RefGen

/-- With `2 ≤ min_len ≤ max_len` no attempt of
`referenceLVLgenerator.py` can raise, and the crash-aware attempt
returns the plain one's result. -/
theorem tryPlaceX_eq_ref (st : State) (o : AttemptO) (h2 : 2 ≤ st.minLen)
    (hml : st.minLen ≤ st.maxLen) :
    tryPlaceX st o = some (tryPlace st o) := by
  unfold tryPlaceX tryPlace
  dsimp only []
  rw [generateRandomWalkBeamX_eq st.rows st.cols st.grid st.minLen
    st.maxLen o h2 hml]
  cases hw : generateRandomWalkBeam st.rows st.cols st.grid st.minLen
      st.maxLen o with
  | none => rfl
  | some c =>
    obtain ⟨path, headPos, headDir⟩ := c
    dsimp only []
    by_cases hclear : isExitPathClear st.rows st.cols st.grid path
        headPos headDir = true
    · rw [if_pos hclear, if_pos hclear]
      by_cases hcyc : ((findBlockingBeams st.rows st.cols st.grid path
          headPos headDir).any (fun b =>
            checkForCycle st.deps st.next b (st.deps.length + 1))) = true
      · rw [if_pos hcyc, if_pos hcyc]
      · rw [if_neg hcyc, if_neg hcyc]
    · rw [if_neg hclear, if_neg hclear]

end RefGen

/-- Unfolding equation of `genLoopX` at positive fuel. -/
theorem genLoopX_succ {σ : Type} (step : σ → AttemptO → Option (Bool × σ))
    (placed target : σ → Nat) (budget : Nat) (o : Nat → AttemptO)
    (st : σ) (k att fuel : Nat) :
    genLoopX step placed target budget o st k att (fuel + 1) =
      if placed st < target st && att < budget then
        match step st (o k) with
        | Option.none => Option.none
        | some (true, st') =>
          genLoopX step placed target budget o st' (k + 1) 0 fuel
        | some (false, st') =>
          genLoopX step placed target budget o st' (k + 1) (att + 1) fuel
      else some (st, att) := rfl

/-- When every attempt from a `P`-state returns (no exception), the
crash-aware loop returns exactly the plain loop's result. -/
theorem genLoopX_eq {σ : Type} (stepX : σ → AttemptO → Option (Bool × σ))
    (step : σ → AttemptO → Bool × σ) (placed target : σ → Nat)
    (budget : Nat) (o : Nat → AttemptO) (P : σ → Prop)
    (hstep : ∀ s a, P s → stepX s a = some (step s a))
    (hP : ∀ s a, P s → P (step s a).2) :
    ∀ (fuel : Nat) (st : σ) (k att : Nat), P st →
      genLoopX stepX placed target budget o st k att fuel
        = some (genLoop step placed target budget o st k att fuel) := by
  intro fuel
  induction fuel with
  | zero => intro st k att _; rfl
  | succ n ih =>
    intro st k att hPst
    rw [genLoopX_succ, genLoop_succ]
    by_cases hg : (placed st < target st && att < budget) = true
    · rw [if_pos hg, if_pos hg, hstep st (o k) hPst]
      cases hs : step st (o k) with
      | mk b s' =>
        have hPs' : P s' := by
          have := hP st (o k) hPst
          rw [hs] at this
          exact this
        cases b
        · exact ih s' (k + 1) (att + 1) hPs'
        · exact ih s' (k + 1) 0 hPs'
    · rw [if_neg hg, if_neg hg]

/-! ### The claims -/

/-- C1, counterexample: the claim states that the geometry stage fails iff
some cell of the exit walk belongs to the candidate's own path.  On a 1×5
grid whose cells `(0,3)`, `(0,4)` belong to an already committed beam 0, a
candidate `[(0,0), (0,1)]` heading right is rejected by
`_is_exit_path_clear` although its exit lane never meets its own path —
the rejection comes from the committed beam's cell on the lane, refuting
the claimed equivalence. -/
theorem c1_counterexample :
    ¬ (isExitPathClear 1 5
        [(((0 : Int), (3 : Int)), 0), (((0 : Int), (4 : Int)), 0)]
        [((0 : Int), (0 : Int)), ((0 : Int), (1 : Int))]
        ((0 : Int), (1 : Int)) Direction.right = false ↔
      ∃ c ∈ exitLaneCells 1 5 ((0 : Int), (1 : Int))
          ((0 : Int), (2 : Int)) 7,
        c ∈ [((0 : Int), (0 : Int)), ((0 : Int), (1 : Int))]) := by
  decide

/-- C1, amended: the placement attempt fails at the geometry stage iff
some cell of the walk from the head outward to the grid boundary is
occupied in the grid or belongs to the candidate's own path. -/
theorem c1_amended (rows cols : Nat) (g : Grid) (path : List Cell)
    (headPos : Cell) (headDir : Direction) (δ : Int × Int)
    (hδ : dirDelta headDir = some δ) :
    (isExitPathClear rows cols g path headPos headDir = false ↔
      ∃ c ∈ exitLaneCells rows cols δ (headPos.1 + δ.1, headPos.2 + δ.2)
          (rows + cols + 1),
        (gridContains g c = true ∨ c ∈ path)) := by
  unfold isExitPathClear
  rw [hδ]
  exact exitScan_false_iff rows cols g path δ (rows + cols + 1) _

/-- Witness for C1 at the counterexample's configuration. -/
theorem c1_amended_witness :
    (isExitPathClear 1 5
        [(((0 : Int), (3 : Int)), 0), (((0 : Int), (4 : Int)), 0)]
        [((0 : Int), (0 : Int)), ((0 : Int), (1 : Int))]
        ((0 : Int), (1 : Int)) Direction.right = false ↔
      ∃ c ∈ exitLaneCells 1 5 ((0 : Int), (1 : Int))
          ((0 : Int), (2 : Int)) 7,
        (gridContains
          [(((0 : Int), (3 : Int)), 0), (((0 : Int), (4 : Int)), 0)] c
            = true ∨
         c ∈ [((0 : Int), (0 : Int)), ((0 : Int), (1 : Int))])) :=
  c1_amended 1 5
    [(((0 : Int), (3 : Int)), 0), (((0 : Int), (4 : Int)), 0)]
    [((0 : Int), (0 : Int)), ((0 : Int), (1 : Int))]
    ((0 : Int), (1 : Int)) Direction.right ((0 : Int), (1 : Int)) rfl

/-- C2: in `lvlGenerator.py` and `referenceLVLgenerator.py` every
committed beam's stored blocker set is empty — `_is_exit_path_clear`
passes only lanes with no occupied cell, so `_find_blocking_beams` never
contributes an edge on a committed attempt; after any run the dependency
graph of either generator contains no edge at all. -/
theorem c2_blocker_sets_empty (rows cols numBeams minLen maxLen : Nat)
    (os : List AttemptO) :
    (∀ p ∈ (LvlGen.runAttempts
        (initState rows cols numBeams minLen maxLen) os).deps, p.2 = []) ∧
    (∀ p ∈ (RefGen.runAttempts
        (initState rows cols numBeams minLen maxLen) os).deps, p.2 = []) := by
  constructor
  · exact (LvlGen.inv_runAttempts _ os
      (inv_initState rows cols numBeams minLen maxLen)).depsEmpty
  · exact (RefGen.inv_runAttempts_ref _ os
      (inv_initState rows cols numBeams minLen maxLen)).depsEmpty

/-- Witness for C2 on a run that commits one beam. -/
theorem c2_witness : ((0 : Nat), ([] : List Nat)).2 = ([] : List Nat) :=
  (c2_blocker_sets_empty 1 5 1 2 2
    [mkOracle (List.range 12) 0 [0, 0] 0 0 []]).1 (0, []) (by decide)

/-- C3: after every successful commit the dependency graph, viewed as
directed edges beam → blocker, is acyclic — no attempt sequence of
`lvlGenerator.py` (set-valued map) or of `src/unnamed/part_000`
(single-target map) reaches a state whose dependency map has a directed
cycle. -/
theorem c3_acyclic (rows cols numBeams minLen maxLen : Nat)
    (os : List AttemptO) :
    (¬ ∃ a, Relation.TransGen
      (Edge (LvlGen.runAttempts
        (initState rows cols numBeams minLen maxLen) os).deps) a a) ∧
    (¬ ∃ a, Relation.TransGen
      (Edge0 (Copy0.runAttempts0
        (Copy0.initState0 rows cols numBeams minLen maxLen) os).deps)
        a a) := by
  constructor
  · apply no_cycle_of_desc
    intro p hp b hb
    have hemp := (LvlGen.inv_runAttempts _ os
      (inv_initState rows cols numBeams minLen maxLen)).depsEmpty p hp
    rw [hemp] at hb
    cases hb
  · apply no_cycle_of_desc0
    exact (Copy0.inv0_runAttempts0 _ os
      (Copy0.inv0_initState0 rows cols numBeams minLen maxLen)).depsDesc

/-- Witness for C3: a concrete `part_000` run committing two beams with a
real dependency edge 1 → 0, which indeed closes no cycle. -/
theorem c3_witness :
    ((1 : Nat), some (0 : Nat)) ∈ (Copy0.runAttempts0
      (Copy0.initState0 1 5 2 2 2)
      [mkOracle [4, 0, 1, 2, 3, 5, 6, 7, 8, 9, 10, 11] 0 [0] 0 0 [],
       mkOracle (List.range 12) 0 [0] 0 0 []]).deps ∧
    ¬ Relation.TransGen (Edge0 (Copy0.runAttempts0
      (Copy0.initState0 1 5 2 2 2)
      [mkOracle [4, 0, 1, 2, 3, 5, 6, 7, 8, 9, 10, 11] 0 [0] 0 0 [],
       mkOracle (List.range 12) 0 [0] 0 0 []]).deps) 1 1 :=
  ⟨by decide, fun h =>
    (c3_acyclic 1 5 2 2 2
      [mkOracle [4, 0, 1, 2, 3, 5, 6, 7, 8, 9, 10, 11] 0 [0] 0 0 [],
       mkOracle (List.range 12) 0 [0] 0 0 []]).2 ⟨1, h⟩⟩

/-- C4, counterexample: the claim bounds every committed beam's length by
`max_len`.  With `min_len = 3`, `max_len = 4` on a 5×5 grid, after one
walk-phase beam the second attempt runs the interior-seed strategy, whose
target length is drawn from `[min_len, min_len + 3]`; the oracle draws 6
and a 6-cell beam commits, exceeding `max_len = 4`. -/
theorem c4_counterexample :
    ¬ (∀ b ∈ (LvlGen.runAttempts (initState 5 5 2 3 4)
        [mkOracle (List.range 20) 0 [1, 1] 0 0 [],
         mkOracle (List.range 20) 0 [] 0 3 [0, 0, 0, 1, 1]]).beams,
        b.path.length ≤ (initState 5 5 2 3 4).maxLen) := by
  decide

/-- C4, amended: every committed beam's path length is at least `min_len`
and at most `max(max_len, min_len + 3)` — the walk phase is capped by
`max_len`, the seed and gap-fill phases by `min_len + 3`. -/
theorem c4_amended (rows cols numBeams minLen maxLen : Nat)
    (os : List AttemptO) :
    ∀ b ∈ (LvlGen.runAttempts
        (initState rows cols numBeams minLen maxLen) os).beams,
      minLen ≤ b.path.length ∧
      b.path.length ≤ max maxLen (minLen + 3) := by
  intro b hb
  have hInv := LvlGen.inv_runAttempts _ os
    (inv_initState rows cols numBeams minLen maxLen)
  obtain ⟨_, _, _, h4, h5⟩ :=
    LvlGen.runAttempts_params (initState rows cols numBeams minLen maxLen) os
  constructor
  · have h := hInv.lenLo b hb
    rw [h4] at h
    exact h
  · have h := hInv.lenHi b hb
    rw [h4, h5] at h
    exact h

/-- Witness for C4 on a run that commits one two-cell beam. -/
theorem c4_witness :
    2 ≤ ([((0 : Int), (0 : Int)), ((0 : Int), (1 : Int))] : List Cell).length ∧
    ([((0 : Int), (0 : Int)), ((0 : Int), (1 : Int))] : List Cell).length
      ≤ max 2 (2 + 3) :=
  c4_amended 1 5 1 2 2 [mkOracle (List.range 12) 0 [0, 0] 0 0 []]
    ⟨0, "#FFFFFF", [((0 : Int), (0 : Int)), ((0 : Int), (1 : Int))]⟩
    (by decide)

unseal List.merge List.mergeSort in
/-- C5, counterexample: the claim says a beam's head cell is serialized
with the direction the beam last traveled.  On a 1×5 grid a single beam
`[(0,0), (0,1)]` is committed (its last step went right), yet the emitted
entry at the head `(0,1)` carries direction `"none"`. -/
theorem c5_counterexample :
    ¬ (∀ e ∈ (LvlGen.generate 1 5 1 2 2
        (fun _ => mkOracle (List.range 12) 0 [0, 0] 0 0 [])).1.cells,
        e.row = 0 ∧ e.col = 1 →
        e.dir = getDirection ((0 : Int), (0 : Int))
          ((0 : Int), (1 : Int))) := by
  decide

/-- C5, amended: in the serialized cell list, every occupied cell other
than a beam's head is assigned the direction toward the next cell in
tail→head order, and the head cell is assigned `"none"`. -/
theorem c5_amended (rows cols numBeams minLen maxLen : Nat)
    (os : List AttemptO) :
    (∀ e ∈ toJsonCells rows cols
        (LvlGen.runAttempts
          (initState rows cols numBeams minLen maxLen) os).beams
        (LvlGen.runAttempts
          (initState rows cols numBeams minLen maxLen) os).grid,
      ∀ b ∈ (LvlGen.runAttempts
          (initState rows cols numBeams minLen maxLen) os).beams,
      ∀ i, i < b.path.length →
        ((e.row, e.col) : Cell) = b.path.getD i (0, 0) →
        (i + 1 < b.path.length →
          e.dir = getDirection (b.path.getD i (0, 0))
            (b.path.getD (i + 1) (0, 0))) ∧
        (i = b.path.length - 1 → e.dir = Direction.none)) ∧
    (∀ e ∈ toJsonCells rows cols
        (RefGen.runAttempts
          (initState rows cols numBeams minLen maxLen) os).beams
        (RefGen.runAttempts
          (initState rows cols numBeams minLen maxLen) os).grid,
      ∀ b ∈ (RefGen.runAttempts
          (initState rows cols numBeams minLen maxLen) os).beams,
      ∀ i, i < b.path.length →
        ((e.row, e.col) : Cell) = b.path.getD i (0, 0) →
        (i + 1 < b.path.length →
          e.dir = getDirection (b.path.getD i (0, 0))
            (b.path.getD (i + 1) (0, 0))) ∧
        (i = b.path.length - 1 → e.dir = Direction.none)) := by
  constructor
  · intro e he b hb i hi hcoord
    have hInv := LvlGen.inv_runAttempts _ os
      (inv_initState rows cols numBeams minLen maxLen)
    obtain ⟨h1, h2, _, _, _⟩ :=
      LvlGen.runAttempts_params
        (initState rows cols numBeams minLen maxLen) os
    have he' : e ∈ toJsonCells
        (LvlGen.runAttempts (initState rows cols numBeams minLen maxLen) os).rows
        (LvlGen.runAttempts (initState rows cols numBeams minLen maxLen) os).cols
        (LvlGen.runAttempts (initState rows cols numBeams minLen maxLen) os).beams
        (LvlGen.runAttempts (initState rows cols numBeams minLen maxLen) os).grid := by
      rw [h1, h2]
      exact he
    have hd := serial_dir _ hInv e he' b hb i hi hcoord
    constructor
    · intro hlt
      rw [hd, if_pos hlt]
    · intro hEq
      by_cases hlt : i + 1 < b.path.length
      · exfalso
        omega
      · rw [hd, if_neg hlt]
  · intro e he b hb i hi hcoord
    have hInv := RefGen.inv_runAttempts_ref _ os
      (inv_initState rows cols numBeams minLen maxLen)
    obtain ⟨h1, h2, _, _, _⟩ :=
      RefGen.runAttempts_params_ref
        (initState rows cols numBeams minLen maxLen) os
    have he' : e ∈ toJsonCells
        (RefGen.runAttempts (initState rows cols numBeams minLen maxLen) os).rows
        (RefGen.runAttempts (initState rows cols numBeams minLen maxLen) os).cols
        (RefGen.runAttempts (initState rows cols numBeams minLen maxLen) os).beams
        (RefGen.runAttempts (initState rows cols numBeams minLen maxLen) os).grid := by
      rw [h1, h2]
      exact he
    have hd := serial_dir _ hInv e he' b hb i hi hcoord
    constructor
    · intro hlt
      rw [hd, if_pos hlt]
    · intro hEq
      by_cases hlt : i + 1 < b.path.length
      · exfalso
        omega
      · rw [hd, if_neg hlt]

unseal List.merge List.mergeSort in
/-- Witness for C5: the head entry of the committed 1×5 beam carries
direction `"none"`, and the tail entry carries the direction toward the
head. -/
theorem c5_witness :
    (({ row := 0, col := 1, ctype := "end", dir := Direction.none,
        color := "#FFFFFF" } : CellEntry).dir = Direction.none) ∧
    (({ row := 0, col := 0, ctype := "start", dir := Direction.right,
        color := "#FFFFFF" } : CellEntry).dir
      = getDirection ((0 : Int), (0 : Int)) ((0 : Int), (1 : Int))) :=
  ⟨((c5_amended 1 5 1 2 2 [mkOracle (List.range 12) 0 [0, 0] 0 0 []]).1
      { row := 0, col := 1, ctype := "end", dir := Direction.none,
        color := "#FFFFFF" } (by decide)
      ⟨0, "#FFFFFF", [((0 : Int), (0 : Int)), ((0 : Int), (1 : Int))]⟩
      (by decide) 1 (by decide) (by decide)).2 (by decide),
   ((c5_amended 1 5 1 2 2 [mkOracle (List.range 12) 0 [0, 0] 0 0 []]).1
      { row := 0, col := 0, ctype := "start", dir := Direction.right,
        color := "#FFFFFF" } (by decide)
      ⟨0, "#FFFFFF", [((0 : Int), (0 : Int)), ((0 : Int), (1 : Int))]⟩
      (by decide) 0 (by decide) (by decide)).1 (by decide)⟩

/-- C6, counterexample: the claim extends exit-lane self-avoidance to
every generator variant, including `src/unnamed/part_000`.  That variant
has no `_is_exit_path_clear` call, and a spiral beam on a 3×3 grid
commits with its own tail cell `(0,0)` sitting on its exit lane. -/
theorem c6_counterexample :
    ¬ (∀ b ∈ (Copy0.runAttempts0 (Copy0.initState0 3 3 1 3 8)
        [mkOracle (List.range 12) 5 [0, 0, 0, 1, 0, 0, 0] 0 0 []]).beams,
        beamSelfHit 3 3 b = false) := by
  decide

/-- C6, amended: for every beam committed by `lvlGenerator.py` or
`referenceLVLgenerator.py`, walking from the beam's head in its head
direction until leaving the grid visits no cell of that same beam; the
`part_000` variant violates this. -/
theorem c6_amended (rows cols numBeams minLen maxLen : Nat)
    (os : List AttemptO) :
    (∀ b ∈ (LvlGen.runAttempts
        (initState rows cols numBeams minLen maxLen) os).beams,
      beamSelfHit rows cols b = false) ∧
    (∀ b ∈ (RefGen.runAttempts
        (initState rows cols numBeams minLen maxLen) os).beams,
      beamSelfHit rows cols b = false) := by
  constructor
  · intro b hb
    have hInv := LvlGen.inv_runAttempts _ os
      (inv_initState rows cols numBeams minLen maxLen)
    obtain ⟨h1, h2, _, _, _⟩ :=
      LvlGen.runAttempts_params
        (initState rows cols numBeams minLen maxLen) os
    have h := hInv.selfClear b hb
    rw [h1, h2] at h
    exact h
  · intro b hb
    have hInv := RefGen.inv_runAttempts_ref _ os
      (inv_initState rows cols numBeams minLen maxLen)
    obtain ⟨h1, h2, _, _, _⟩ :=
      RefGen.runAttempts_params_ref
        (initState rows cols numBeams minLen maxLen) os
    have h := hInv.selfClear b hb
    rw [h1, h2] at h
    exact h

/-- Witness for C6 on the committed 1×5 beam. -/
theorem c6_witness :
    beamSelfHit 1 5
      ⟨0, "#FFFFFF", [((0 : Int), (0 : Int)), ((0 : Int), (1 : Int))]⟩
      = false :=
  (c6_amended 1 5 1 2 2 [mkOracle (List.range 12) 0 [0, 0] 0 0 []]).1
    ⟨0, "#FFFFFF", [((0 : Int), (0 : Int)), ((0 : Int), (1 : Int))]⟩
    (by decide)

/-- C7: placement attempts of `lvlGenerator.py` are atomic — whenever
`_try_to_place_beam` returns failure, the grid map, the beams map, the
dependencies map and the next beam id are exactly as before the
attempt. -/
theorem c7_atomic (st : State) (o : AttemptO)
    (h : (LvlGen.tryPlace st o).1 = false) :
    (LvlGen.tryPlace st o).2.grid = st.grid ∧
    (LvlGen.tryPlace st o).2.beams = st.beams ∧
    (LvlGen.tryPlace st o).2.deps = st.deps ∧
    (LvlGen.tryPlace st o).2.next = st.next := by
  have heq := LvlGen.tryPlace_false_eq st o h
  rw [heq]
  exact ⟨rfl, rfl, rfl, rfl⟩

/-- Witness for C7 on a failing attempt (no path can reach `min_len = 5`
on a 1×1 grid). -/
theorem c7_witness :
    (LvlGen.tryPlace (initState 1 1 1 5 5)
      (mkOracle (List.range 4) 0 [] 0 0 [])).2.grid
        = (initState 1 1 1 5 5).grid ∧
    (LvlGen.tryPlace (initState 1 1 1 5 5)
      (mkOracle (List.range 4) 0 [] 0 0 [])).2.beams
        = (initState 1 1 1 5 5).beams ∧
    (LvlGen.tryPlace (initState 1 1 1 5 5)
      (mkOracle (List.range 4) 0 [] 0 0 [])).2.deps
        = (initState 1 1 1 5 5).deps ∧
    (LvlGen.tryPlace (initState 1 1 1 5 5)
      (mkOracle (List.range 4) 0 [] 0 0 [])).2.next
        = (initState 1 1 1 5 5).next :=
  c7_atomic (initState 1 1 1 5 5) (mkOracle (List.range 4) 0 [] 0 0 [])
    (by decide)

/-- C8: committed beams occupy in-bounds, duplicate-free, pairwise
disjoint cell sets, and the grid map assigns each occupied cell to the
one committed beam owning it. -/
theorem c8_geometry (rows cols numBeams minLen maxLen : Nat)
    (os : List AttemptO) (st : State)
    (hst : st = LvlGen.runAttempts
        (initState rows cols numBeams minLen maxLen) os ∨
      st = RefGen.runAttempts
        (initState rows cols numBeams minLen maxLen) os) :
    (∀ b ∈ st.beams, b.path.Nodup ∧
      ∀ c ∈ b.path, inBounds rows cols c = true) ∧
    List.Pairwise (fun a b => ∀ c ∈ a.path, c ∉ b.path) st.beams ∧
    (∀ c i, gridGet st.grid c = some i →
      ∃ b ∈ st.beams, b.id = i ∧ c ∈ b.path) ∧
    (∀ c, gridContains st.grid c = true ↔ ∃ b ∈ st.beams, c ∈ b.path) := by
  have hInv : Inv st := by
    rcases hst with rfl | rfl
    · exact LvlGen.inv_runAttempts _ os
        (inv_initState rows cols numBeams minLen maxLen)
    · exact RefGen.inv_runAttempts_ref _ os
        (inv_initState rows cols numBeams minLen maxLen)
  have hrc : st.rows = rows ∧ st.cols = cols := by
    rcases hst with rfl | rfl
    · obtain ⟨h1, h2, _, _, _⟩ := LvlGen.runAttempts_params
        (initState rows cols numBeams minLen maxLen) os
      exact ⟨h1, h2⟩
    · obtain ⟨h1, h2, _, _, _⟩ := RefGen.runAttempts_params_ref
        (initState rows cols numBeams minLen maxLen) os
      exact ⟨h1, h2⟩
  obtain ⟨hnodups, hpair⟩ := List.nodup_flatMap.mp hInv.flatNodup
  refine ⟨?_, ?_, ?_, ?_⟩
  · intro b hb
    refine ⟨hnodups b hb, ?_⟩
    intro c hc
    have h := hInv.pathsInB b hb c hc
    rw [hrc.1, hrc.2] at h
    exact h
  · refine hpair.imp ?_
    intro a b hab c hc hcb
    exact hab hc hcb
  · intro c i hci
    have hmem := gridGet_some_mem hci
    rcases hInv.gridOwn (c, i) hmem with ⟨b, hb, hid, hcb⟩
    exact ⟨b, hb, hid, hcb⟩
  · intro c
    constructor
    · intro hc
      have h1 := gridContains_iff_mem_keys.mp hc
      have h2 := hInv.gridKeys.mem_iff.mp h1
      rcases List.mem_flatMap.mp h2 with ⟨b, hb, hcb⟩
      exact ⟨b, hb, hcb⟩
    · rintro ⟨b, hb, hcb⟩
      apply gridContains_iff_mem_keys.mpr
      apply hInv.gridKeys.mem_iff.mpr
      exact List.mem_flatMap.mpr ⟨b, hb, hcb⟩

/-- Witness for C8 on a run committing one beam on a 1×5 grid. -/
theorem c8_witness :
    (∀ b ∈ (LvlGen.runAttempts (initState 1 5 1 2 2)
        [mkOracle (List.range 12) 0 [0, 0] 0 0 []]).beams,
      b.path.Nodup ∧ ∀ c ∈ b.path, inBounds 1 5 c = true) ∧
    List.Pairwise (fun a b => ∀ c ∈ a.path, c ∉ b.path)
      (LvlGen.runAttempts (initState 1 5 1 2 2)
        [mkOracle (List.range 12) 0 [0, 0] 0 0 []]).beams ∧
    (∀ c i, gridGet (LvlGen.runAttempts (initState 1 5 1 2 2)
        [mkOracle (List.range 12) 0 [0, 0] 0 0 []]).grid c = some i →
      ∃ b ∈ (LvlGen.runAttempts (initState 1 5 1 2 2)
        [mkOracle (List.range 12) 0 [0, 0] 0 0 []]).beams,
        b.id = i ∧ c ∈ b.path) ∧
    (∀ c, gridContains (LvlGen.runAttempts (initState 1 5 1 2 2)
        [mkOracle (List.range 12) 0 [0, 0] 0 0 []]).grid c = true ↔
      ∃ b ∈ (LvlGen.runAttempts (initState 1 5 1 2 2)
        [mkOracle (List.range 12) 0 [0, 0] 0 0 []]).beams, c ∈ b.path) :=
  c8_geometry 1 5 1 2 2 [mkOracle (List.range 12) 0 [0, 0] 0 0 []]
    (LvlGen.runAttempts (initState 1 5 1 2 2)
      [mkOracle (List.range 12) 0 [0, 0] 0 0 []])
    (Or.inl rfl)

/-- C9, counterexample: the claim says the generation loop always halts
by count-or-budget and the level is then emitted, a shortfall surfacing
as a warning and never as an exception.  At `rows = cols = 1` and
`num_beams = min_len = max_len = 1`, the very first attempt of
`lvlGenerator.py` accepts the length-1 path `[(0, 0)]` (it passes
`len(path) >= self.min_len`) and then raises `IndexError` at
`neck_pos = path[-2]`; with no `try`/`except` anywhere, the exception
escapes `generate`, which emits nothing. -/
theorem c9_counterexample :
    ¬ ((LvlGen.generateX 1 1 1 1 1
        (fun _ => mkOracle (List.range 4) 0 [] 0 0 [])).isSome = true) := by
  decide

/-- C9, amended: provided `2 ≤ min_len ≤ max_len` (in particular in every
configuration the repository ships), no attempt can raise, and the retry
loops of `lvlGenerator.py` (budget `num_beams * 100`) and
`referenceLVLgenerator.py` (budget `num_beams * 1000`) — which reset the
consecutive-failure counter on success and increment it on rejection —
halt with either the requested beam count reached or the counter at the
budget; the level is then emitted from whatever state was reached, the
shortfall reported only through the warning flag.  Outside those bounds
the run can instead abort with no level emitted: with `min_len ≤ 1` an
accepted length-1 path raises `IndexError` at `path[-2]` in either
generator, and with `min_len > max_len` the walk `randint` of
`referenceLVLgenerator.py` raises `ValueError` (the `triangular` draw of
`lvlGenerator.py` never raises). -/
theorem c9_amended (rows cols numBeams minLen maxLen : Nat)
    (o : Nat → AttemptO) (h2 : 2 ≤ minLen) (hml : minLen ≤ maxLen) :
    (∃ st att,
      genLoopX LvlGen.tryPlaceX (fun s => s.beams.length)
        (fun s => s.numBeams) (numBeams * 100) o
        (initState rows cols numBeams minLen maxLen) 0 0
        (loopFuel numBeams (numBeams * 100)) = some (st, att) ∧
      (st.beams.length = st.numBeams ∨ att = numBeams * 100) ∧
      LvlGen.generateX rows cols numBeams minLen maxLen o
        = some (toJson st, decide (st.beams.length < st.numBeams))) ∧
    (∃ st att,
      genLoopX RefGen.tryPlaceX (fun s => s.beams.length)
        (fun s => s.numBeams) (numBeams * 1000) o
        (initState rows cols numBeams minLen maxLen) 0 0
        (loopFuel numBeams (numBeams * 1000)) = some (st, att) ∧
      (st.beams.length = st.numBeams ∨ att = numBeams * 1000) ∧
      RefGen.generateX rows cols numBeams minLen maxLen o
        = some (toJson st, decide (st.beams.length < st.numBeams))) := by
  constructor
  · have hXeq : genLoopX LvlGen.tryPlaceX (fun s => s.beams.length)
        (fun s => s.numBeams) (numBeams * 100) o
        (initState rows cols numBeams minLen maxLen) 0 0
        (loopFuel numBeams (numBeams * 100))
        = some (genLoop LvlGen.tryPlace (fun s => s.beams.length)
          (fun s => s.numBeams) (numBeams * 100) o
          (initState rows cols numBeams minLen maxLen) 0 0
          (loopFuel numBeams (numBeams * 100))) :=
      genLoopX_eq LvlGen.tryPlaceX LvlGen.tryPlace
        (fun s => s.beams.length) (fun s => s.numBeams) (numBeams * 100) o
        (fun s => 2 ≤ s.minLen ∧ s.minLen ≤ s.maxLen)
        (fun s a h => LvlGen.tryPlaceX_eq s a h.1 h.2)
        (fun s a h => by
          obtain ⟨_, _, _, g4, g5⟩ := LvlGen.tryPlace_params s a
          rw [g4, g5]
          exact h)
        (loopFuel numBeams (numBeams * 100))
        (initState rows cols numBeams minLen maxLen) 0 0 ⟨h2, hml⟩
    obtain ⟨st, att, hloop, hdone⟩ :=
      genLoop_exit LvlGen.tryPlace (fun s => s.beams.length)
        (fun s => s.numBeams) (numBeams * 100) o
        (fun s a h => LvlGen.tryPlace_true_counts s a h)
        (fun s a h => LvlGen.tryPlace_false_eq s a h)
        (loopFuel numBeams (numBeams * 100))
        (initState rows cols numBeams minLen maxLen) 0 0
        (by
          show (numBeams - 0) * (numBeams * 100 + 1) + (numBeams * 100 - 0)
            < loopFuel numBeams (numBeams * 100)
          simp only [Nat.sub_zero]
          unfold loopFuel
          rw [Nat.add_mul, one_mul]
          omega)
        (Nat.zero_le _) (Nat.zero_le _)
    refine ⟨st, att, ?_, hdone, ?_⟩
    · rw [hXeq, hloop]
    · unfold LvlGen.generateX
      dsimp only
      rw [hXeq, hloop]
      rfl
  · have hXeq : genLoopX RefGen.tryPlaceX (fun s => s.beams.length)
        (fun s => s.numBeams) (numBeams * 1000) o
        (initState rows cols numBeams minLen maxLen) 0 0
        (loopFuel numBeams (numBeams * 1000))
        = some (genLoop RefGen.tryPlace (fun s => s.beams.length)
          (fun s => s.numBeams) (numBeams * 1000) o
          (initState rows cols numBeams minLen maxLen) 0 0
          (loopFuel numBeams (numBeams * 1000))) :=
      genLoopX_eq RefGen.tryPlaceX RefGen.tryPlace
        (fun s => s.beams.length) (fun s => s.numBeams) (numBeams * 1000) o
        (fun s => 2 ≤ s.minLen ∧ s.minLen ≤ s.maxLen)
        (fun s a h => RefGen.tryPlaceX_eq_ref s a h.1 h.2)
        (fun s a h => by
          obtain ⟨_, _, _, g4, g5⟩ := RefGen.tryPlace_params_ref s a
          rw [g4, g5]
          exact h)
        (loopFuel numBeams (numBeams * 1000))
        (initState rows cols numBeams minLen maxLen) 0 0 ⟨h2, hml⟩
    obtain ⟨st, att, hloop, hdone⟩ :=
      genLoop_exit RefGen.tryPlace (fun s => s.beams.length)
        (fun s => s.numBeams) (numBeams * 1000) o
        (fun s a h => RefGen.tryPlace_true_counts_ref s a h)
        (fun s a h => RefGen.tryPlace_false_eq_ref s a h)
        (loopFuel numBeams (numBeams * 1000))
        (initState rows cols numBeams minLen maxLen) 0 0
        (by
          show (numBeams - 0) * (numBeams * 1000 + 1) + (numBeams * 1000 - 0)
            < loopFuel numBeams (numBeams * 1000)
          simp only [Nat.sub_zero]
          unfold loopFuel
          rw [Nat.add_mul, one_mul]
          omega)
        (Nat.zero_le _) (Nat.zero_le _)
    refine ⟨st, att, ?_, hdone, ?_⟩
    · rw [hXeq, hloop]
    · unfold RefGen.generateX
      dsimp only
      rw [hXeq, hloop]
      rfl

/-- Witness for C9 on a run with `min_len = max_len = 2` committing one
beam on a 1×5 grid. -/
theorem c9_amended_witness :
    2 ≤ 2 ∧
    ((∃ st att,
      genLoopX LvlGen.tryPlaceX (fun s => s.beams.length)
        (fun s => s.numBeams) (1 * 100)
        (fun _ => mkOracle (List.range 12) 0 [0, 0] 0 0 [])
        (initState 1 5 1 2 2) 0 0 (loopFuel 1 (1 * 100)) = some (st, att) ∧
      (st.beams.length = st.numBeams ∨ att = 1 * 100) ∧
      LvlGen.generateX 1 5 1 2 2
        (fun _ => mkOracle (List.range 12) 0 [0, 0] 0 0 [])
        = some (toJson st, decide (st.beams.length < st.numBeams))) ∧
    (∃ st att,
      genLoopX RefGen.tryPlaceX (fun s => s.beams.length)
        (fun s => s.numBeams) (1 * 1000)
        (fun _ => mkOracle (List.range 12) 0 [0, 0] 0 0 [])
        (initState 1 5 1 2 2) 0 0 (loopFuel 1 (1 * 1000)) = some (st, att) ∧
      (st.beams.length = st.numBeams ∨ att = 1 * 1000) ∧
      RefGen.generateX 1 5 1 2 2
        (fun _ => mkOracle (List.range 12) 0 [0, 0] 0 0 [])
        = some (toJson st, decide (st.beams.length < st.numBeams)))) :=
  ⟨by decide,
   c9_amended 1 5 1 2 2 (fun _ => mkOracle (List.range 12) 0 [0, 0] 0 0 [])
     (by decide) (by decide)⟩

/-- On an invariant state with the given configuration, the serialization
has full length and covers each coordinate once. -/
theorem serial_all (st : State) (hInv : Inv st) (rows cols : Nat)
    (h1 : st.rows = rows) (h2 : st.cols = cols) :
    (toJsonCells st.rows st.cols st.beams st.grid).length = rows * cols ∧
    ((toJsonCells st.rows st.cols st.beams st.grid).map
      (fun e => ((e.row, e.col) : Cell))).Perm (productCells rows cols) := by
  subst h1
  subst h2
  exact ⟨serial_length st hInv, serial_coords_perm st hInv⟩

/-- C10: the cell list emitted by `generate` of `lvlGenerator.py` has
exactly `rows * cols` entries, its coordinates are a permutation of the
full coordinate sweep (each pair appearing exactly once), `empty` entries
sit on unoccupied cells, and every other entry carries the data of a
committed beam through that cell. -/
theorem c10_coverage (rows cols numBeams minLen maxLen : Nat)
    (o : Nat → AttemptO) :
    ∃ st att,
      genLoop LvlGen.tryPlace (fun s => s.beams.length)
        (fun s => s.numBeams) (numBeams * 100) o
        (initState rows cols numBeams minLen maxLen) 0 0
        (loopFuel numBeams (numBeams * 100)) = (st, att) ∧
      (LvlGen.generate rows cols numBeams minLen maxLen o).1.cells
        = toJsonCells rows cols st.beams st.grid ∧
      (LvlGen.generate rows cols numBeams minLen maxLen o).1.cells.length
        = rows * cols ∧
      ((LvlGen.generate rows cols numBeams minLen maxLen o).1.cells.map
        (fun e => ((e.row, e.col) : Cell))).Perm (productCells rows cols) ∧
      (∀ e ∈ (LvlGen.generate rows cols numBeams minLen maxLen o).1.cells,
        (e.ctype = "empty" →
          gridContains st.grid (e.row, e.col) = false) ∧
        (e.ctype ≠ "empty" → ∃ b ∈ st.beams,
          ((e.row, e.col) : Cell) ∈ b.path ∧ e.color = b.color)) := by
  have hInv : Inv (genLoop LvlGen.tryPlace (fun s => s.beams.length)
      (fun s => s.numBeams) (numBeams * 100) o
      (initState rows cols numBeams minLen maxLen) 0 0
      (loopFuel numBeams (numBeams * 100))).1 :=
    genLoop_inv LvlGen.tryPlace (fun s => s.beams.length)
      (fun s => s.numBeams) (numBeams * 100) o Inv
      (fun s a h => LvlGen.inv_tryPlace s a h)
      (loopFuel numBeams (numBeams * 100))
      (initState rows cols numBeams minLen maxLen) 0 0
      (inv_initState rows cols numBeams minLen maxLen)
  have hparams : (genLoop LvlGen.tryPlace (fun s => s.beams.length)
      (fun s => s.numBeams) (numBeams * 100) o
      (initState rows cols numBeams minLen maxLen) 0 0
      (loopFuel numBeams (numBeams * 100))).1.rows = rows ∧
      (genLoop LvlGen.tryPlace (fun s => s.beams.length)
      (fun s => s.numBeams) (numBeams * 100) o
      (initState rows cols numBeams minLen maxLen) 0 0
      (loopFuel numBeams (numBeams * 100))).1.cols = cols :=
    genLoop_inv LvlGen.tryPlace (fun s => s.beams.length)
      (fun s => s.numBeams) (numBeams * 100) o
      (fun s => s.rows = rows ∧ s.cols = cols)
      (fun s a h => by
        obtain ⟨g1, g2, _, _, _⟩ := LvlGen.tryPlace_params s a
        exact ⟨g1.trans h.1, g2.trans h.2⟩)
      (loopFuel numBeams (numBeams * 100))
      (initState rows cols numBeams minLen maxLen) 0 0 ⟨rfl, rfl⟩
  have hcells : (LvlGen.generate rows cols numBeams minLen maxLen o).1.cells
      = toJsonCells
        (genLoop LvlGen.tryPlace (fun s => s.beams.length)
          (fun s => s.numBeams) (numBeams * 100) o
          (initState rows cols numBeams minLen maxLen) 0 0
          (loopFuel numBeams (numBeams * 100))).1.rows
        (genLoop LvlGen.tryPlace (fun s => s.beams.length)
          (fun s => s.numBeams) (numBeams * 100) o
          (initState rows cols numBeams minLen maxLen) 0 0
          (loopFuel numBeams (numBeams * 100))).1.cols
        (genLoop LvlGen.tryPlace (fun s => s.beams.length)
          (fun s => s.numBeams) (numBeams * 100) o
          (initState rows cols numBeams minLen maxLen) 0 0
          (loopFuel numBeams (numBeams * 100))).1.beams
        (genLoop LvlGen.tryPlace (fun s => s.beams.length)
          (fun s => s.numBeams) (numBeams * 100) o
          (initState rows cols numBeams minLen maxLen) 0 0
          (loopFuel numBeams (numBeams * 100))).1.grid := rfl
  obtain ⟨hlen, hperm⟩ := serial_all _ hInv rows cols hparams.1 hparams.2
  refine ⟨(genLoop LvlGen.tryPlace (fun s => s.beams.length)
      (fun s => s.numBeams) (numBeams * 100) o
      (initState rows cols numBeams minLen maxLen) 0 0
      (loopFuel numBeams (numBeams * 100))).1,
    (genLoop LvlGen.tryPlace (fun s => s.beams.length)
      (fun s => s.numBeams) (numBeams * 100) o
      (initState rows cols numBeams minLen maxLen) 0 0
      (loopFuel numBeams (numBeams * 100))).2, rfl, ?_, ?_, ?_, ?_⟩
  · rw [hcells, hparams.1, hparams.2]
  · rw [hcells]
    exact hlen
  · rw [hcells]
    exact hperm
  · intro e he
    rw [hcells] at he
    exact serial_types _ hInv e he

end BeamOfLights
